import Mathlib

/-!
Verification development for the metadata encoder of src/librustc/metadata/encoder.rs.

The encoder is embedded shallowly: the rbml tagged writer (an external
collaborator) is modelled as a list of write events (`Tok`), one event per
writer call; raw byte writes (`write_be_u32`) are byte events.  Collaborator
calls whose payload serialization lives outside this file's source
(tyencode, inlined-item encoding, Encodable impls) are single `Tok.ext`
events carrying the call's arguments.  Fallible paths are modelled with
`Except EncErr`: `EncErr.bug` is the diagnostic-sink path
(SpanHandler::bug), `EncErr.assertFail` is a failed assert! / assert_eq! /
out-of-bounds index.  Positions returned by mark_stable_position are
modelled as the current length of the emitted event list.
-/

namespace MetaEnc

/-- Fatal error channels: `bug` is a report through the diagnostic sink
(SpanHandler), `assertFail` an assertion failure aborting the encode. -/
inductive EncErr where
  | bug
  | assertFail
deriving DecidableEq, Repr

/-- Tags of the rbml records this development touches, kept symbolic: the
numeric tag values live in metadata/common.rs, outside the analysed file. -/
inductive TagId where
  | index
  | indexBuckets
  | indexBucketsBucket
  | indexBucketsBucketElt
  | indexTable
  | crateDeps
  | crateDep
  | crateDepCrateName
  | crateDepHash
  | itemsDataItem
  | defIdTag
  | itemFamily
  | pathsDataName
  | parentItem
  | visibilityTag
  | attributesTag
  | attributeTag
  | attributeIsSugaredDoc
  | itemsDataItemRepr
  | disrVal
  | modChild
  | modImpl
  | pathTag
  | pathLen
  | pathElemMod
  | pathElemName
  | stabilityTag
  | itemsDataItemReexport
  | reexportDefId
  | reexportName
  | itemSymbol
  | constnessTag
  | methodArgumentNames
  | methodArgumentName
  | traitItemSort
  | methodTyGenerics
  | itemMethodFty
  | methodProvidedSource
  | explicitSelfTag
  | unnamedField
  | itemField
  | itemFieldOrigin
  | itemGenerics
deriving DecidableEq, Repr

/-- DefId from syntax::ast: a crate number and a node id. -/
structure DefId where
  krate : Nat
  node : Nat
deriving DecidableEq, Repr

/-- Calls into collaborators (tyencode, Encodable, the inlined-item closure)
whose byte output is produced outside encoder.rs; each is one event. -/
inductive ExtCall where
  | boundsAndType (id : Nat)
  | genericsEnc (d : DefId)
  | methodFty (d : DefId)
  | reprEncode (r : Nat)
  | stabEncode (s : Nat)
  | iiItem (id : Nat)
  | iiImplItem (parent : DefId) (id : Nat)
  | metaItem (m : Nat)
deriving DecidableEq, Repr

/-- One rbml writer event.  `start`/`stop` bracket a nested record,
`byte` is a raw byte written straight into the writer (write_be_u32),
the tagged scalar writes mirror wr_tagged_u8/u32/u64/str/bytes. -/
inductive Tok where
  | start (tag : TagId)
  | stop
  | byte (b : Nat)
  | u8 (tag : TagId) (v : Nat)
  | u32 (tag : TagId) (v : Nat)
  | u64 (tag : TagId) (v : Nat)
  | str (tag : TagId) (s : String)
  | bytes (tag : TagId) (bs : List Nat)
  | ext (c : ExtCall)
deriving DecidableEq, Repr

/-- struct entry from encoder.rs: an index key with the byte position its
record starts at. -/
structure entry (α : Type) where
  val : α
  pos : Nat
deriving DecidableEq, Repr

/-- ast::Visibility as the encoder distinguishes it. -/
inductive Vis where
  | publicVis
  | inherited
deriving DecidableEq, Repr

/-- ast::Constness. -/
inductive Constness where
  | const
  | notConst
deriving DecidableEq, Repr

/-- ty::ExplicitSelfCategory. -/
inductive SelfCat where
  | staticSelf
  | byValue
  | byBox
  | byRef (mutable : Bool)
deriving DecidableEq, Repr

/-- ast_map::PathElem; names are interned-name atoms modelled as Nat. -/
inductive PathElem where
  | pathMod (name : Nat)
  | pathName (name : Nat)
deriving DecidableEq, Repr

/-- An attribute, abstracted to the facts the encoder consults: whether
attr::requests_inline holds for it, the sugared-doc flag, and an opaque
meta-item payload serialized by encode_meta_item. -/
structure Attr where
  requestsInlineFlag : Bool
  isSugaredDoc : Bool
  meta : Nat
deriving DecidableEq, Repr

/-- def::Export: the exported name and the target definition. -/
structure Export where
  name : Nat
  def_id : DefId
deriving DecidableEq, Repr

/-- ty::field_ty as consulted here: name atom, unnamed-field flag
(special_idents::unnamed_field), definition id and visibility. -/
structure FieldTy where
  name : Nat
  unnamed : Bool
  id : DefId
  vis : Vis
deriving DecidableEq, Repr

/-- One ast::Variant as encode_enum_variant_info reads it:
kindStruct is true for StructVariantKind, false for TupleVariantKind. -/
structure VariantView where
  id : Nat
  name : Nat
  kindStruct : Bool
  vis : Vis
  attrs : List Attr
deriving DecidableEq, Repr

/-- ast struct-field declaration, for each_auxiliary_node_id. -/
structure FieldDeclView where
  unnamed : Bool
deriving DecidableEq, Repr

/-- The shape of a module child item that encode_info_for_mod consults. -/
inductive ItemNode where
  | itemImpl
  | itemStruct (ctorId : Option Nat) (fields : List FieldDeclView)
  | otherItem
deriving DecidableEq, Repr

/-- An ast::Item as seen from encode_info_for_mod. -/
structure ItemView where
  id : Nat
  node : ItemNode
deriving DecidableEq, Repr

/-- ty::ImplOrTraitItem restricted to what the re-export mirroring reads. -/
inductive ImplOrTraitItem where
  | methodItem (def_id : DefId) (name : Nat)
  | otherItem
deriving DecidableEq, Repr

/-- decoder::CrateDep: crate number, name and hash. -/
structure CrateDep where
  cnum : Nat
  name : String
  hash : String
deriving DecidableEq, Repr

instance : IsTotal CrateDep (fun a b => a.cnum ≤ b.cnum) :=
  ⟨fun a b => Nat.le_total a.cnum b.cnum⟩

instance : IsTrans CrateDep (fun a b => a.cnum ≤ b.cnum) :=
  ⟨fun _ _ _ => Nat.le_trans⟩

instance : IsAntisymm CrateDep (fun a b => a.cnum < b.cnum) :=
  ⟨fun _ _ h1 h2 => absurd h2 (Nat.lt_asymm h1)⟩

/-- The ast::ItemFn data read by the ItemFn arm of encode_info_for_item. -/
structure FnItemView where
  id : Nat
  name : Nat
  vis : Vis
  constness : Constness
  tpsLen : Nat
  attrs : List Attr
  argNames : List (Option Nat)
deriving DecidableEq, Repr

/-- ty::Method fields consulted by encode_info_for_method /
encode_method_ty_fields. -/
structure MethodView where
  def_id : DefId
  name : Nat
  vis : Vis
  explicitSelf : SelfCat
  providedSource : Option DefId
deriving DecidableEq, Repr

/-- ast::ImplItem node as consulted: either a method (with its signature
constness and argument names) or some other impl item. -/
inductive ImplItemNode where
  | methodItem (constness : Constness) (argNames : List (Option Nat))
  | otherItem
deriving DecidableEq, Repr

/-- An ast::ImplItem with its id and attributes. -/
structure ImplItemView where
  id : Nat
  attrs : List Attr
  node : ImplItemNode
deriving DecidableEq, Repr

/-- Read-only views of the precomputed compiler state (ty::ctxt, ast_map,
stability index) that the encoder queries; all lookups, no mutation. -/
structure TcxView where
  stab : DefId → Option Nat
  reexports : Nat → Option (List Export)
  astFindItem : Nat → Option Nat
  withPath : Nat → List PathElem
  inherentImpls : DefId → Option (List DefId)
  implItems : DefId → List DefId
  traitItemsCache : DefId → Option (List ImplOrTraitItem)
  implOrTraitItem : DefId → ImplOrTraitItem
  enumVariants : Nat → List Nat
  lookupStructFields : DefId → List FieldTy
  reprOf : List Attr → Nat
  anyTypes : DefId → Bool

deriving instance DecidableEq for Except

/-- ast::LOCAL_CRATE. -/
def LOCAL_CRATE : Nat := 0

/-- ast_util::local_def. -/
def local_def (id : Nat) : DefId := ⟨LOCAL_CRATE, id⟩

/-- def_to_u64: (krate as u64) << 32 | (node as u64), with both fields u32. -/
def def_to_u64 (d : DefId) : Nat := (d.krate % 2 ^ 32) * 2 ^ 32 + d.node % 2 ^ 32

/-- token::get_name, modelled as rendering the name atom. -/
def nameStr (n : Nat) : String := toString n

/-- Collaborator model of syntax::attr::requests_inline. -/
def requests_inline (attrs : List Attr) : Bool := attrs.any (·.requestsInlineFlag)

/-- encode_name. -/
def encode_name (n : Nat) : List Tok := [Tok.str TagId.pathsDataName (nameStr n)]

/-- encode_def_id. -/
def encode_def_id (d : DefId) : List Tok := [Tok.u64 TagId.defIdTag (def_to_u64 d)]

/-- encode_family. -/
def encode_family (c : Char) : List Tok := [Tok.u8 TagId.itemFamily c.toNat]

/-- encode_parent_item. -/
def encode_parent_item (d : DefId) : List Tok :=
  [Tok.u64 TagId.parentItem (def_to_u64 d)]

/-- encode_visibility: Public writes the byte of y, Inherited the byte of i. -/
def encode_visibility (v : Vis) : List Tok :=
  [Tok.u8 TagId.visibilityTag (match v with
    | Vis.publicVis => Char.toNat 'y'
    | Vis.inherited => Char.toNat 'i')]

/-- encode_struct_field_family: g for public, N for inherited. -/
def encode_struct_field_family (v : Vis) : List Tok :=
  encode_family (match v with
    | Vis.publicVis => 'g'
    | Vis.inherited => 'N')

/-- encode_constness: a nested record holding the c/n string. -/
def encode_constness (c : Constness) : List Tok :=
  [Tok.start TagId.constnessTag,
   Tok.str TagId.constnessTag (match c with
     | Constness.const => "c"
     | Constness.notConst => "n"),
   Tok.stop]

/-- encode_item_sort. -/
def encode_item_sort (c : Char) : List Tok := [Tok.u8 TagId.traitItemSort c.toNat]

/-- encode_attributes: one nested record per attribute, its meta item
serialized by the (elided) encode_meta_item. -/
def encode_attributes (attrs : List Attr) : List Tok :=
  [Tok.start TagId.attributesTag] ++
    attrs.flatMap (fun a =>
      [Tok.start TagId.attributeTag,
       Tok.u8 TagId.attributeIsSugaredDoc (if a.isSugaredDoc then 1 else 0),
       Tok.ext (ExtCall.metaItem a.meta),
       Tok.stop]) ++
    [Tok.stop]

/-- encode_stability: nothing when no stability is recorded. -/
def encode_stability (stabOpt : Option Nat) : List Tok :=
  match stabOpt with
  | some s => [Tok.start TagId.stabilityTag, Tok.ext (ExtCall.stabEncode s), Tok.stop]
  | none => []

/-- encode_repr_attrs: the record holding the Encodable repr list. -/
def encode_repr_attrs (tcx : TcxView) (attrs : List Attr) : List Tok :=
  [Tok.start TagId.itemsDataItemRepr, Tok.ext (ExtCall.reprEncode (tcx.reprOf attrs)),
   Tok.stop]

/-- encode_explicit_self. -/
def encode_explicit_self (s : SelfCat) : List Tok :=
  match s with
  | SelfCat.staticSelf => [Tok.bytes TagId.explicitSelfTag [Char.toNat 's']]
  | SelfCat.byValue => [Tok.bytes TagId.explicitSelfTag [Char.toNat 'v']]
  | SelfCat.byBox => [Tok.bytes TagId.explicitSelfTag [Char.toNat '~']]
  | SelfCat.byRef m =>
      [Tok.bytes TagId.explicitSelfTag
        [Char.toNat '&', if m then Char.toNat 'm' else Char.toNat 'i']]

/-- encode_provided_source. -/
def encode_provided_source (sourceOpt : Option DefId) : List Tok :=
  match sourceOpt with
  | some d => [Tok.u64 TagId.methodProvidedSource (def_to_u64 d)]
  | none => []

/-- encode_path: the path length then one tagged string per element. -/
def encode_path (path : List PathElem) : List Tok :=
  [Tok.start TagId.pathTag, Tok.u32 TagId.pathLen (path.length % 2 ^ 32)] ++
    path.map (fun pe =>
      match pe with
      | PathElem.pathMod n => Tok.str TagId.pathElemMod (nameStr n)
      | PathElem.pathName n => Tok.str TagId.pathElemName (nameStr n)) ++
    [Tok.stop]

/-- encode_method_argument_names: one tagged-bytes write per argument,
empty when the pattern binds no plain name. -/
def encode_method_argument_names (args : List (Option Nat)) : List Tok :=
  [Tok.start TagId.methodArgumentNames] ++
    args.map (fun a =>
      match a with
      | some n => Tok.bytes TagId.methodArgumentName [n]
      | none => Tok.bytes TagId.methodArgumentName []) ++
    [Tok.stop]

/-- encode_symbol: looks the node id up in item_symbols; a missing entry is
reported through the diagnostic sink (handler bug), aborting. -/
def encode_symbol (syms : List (Nat × String)) (id : Nat) : Except EncErr (List Tok) :=
  match syms.lookup id with
  | some x => .ok [Tok.str TagId.itemSymbol x]
  | none => .error EncErr.bug

/-- write_be_u32 at the event level: four raw bytes, most significant first. -/
def write_be_u32 (u : Nat) : List Tok :=
  [Tok.byte (u / 2 ^ 24 % 256), Tok.byte (u / 2 ^ 16 % 256),
   Tok.byte (u / 2 ^ 8 % 256), Tok.byte (u % 256)]

/-- Conversion of an i64 to u32 by truncation, as in n as u32. -/
def u32_of_i64 (n : Int) : Nat := (n % (2 : Int) ^ 32).toNat

/-- write_i64: asserts the key is below 0x7fff_ffff, then writes it as a
big-endian u32. -/
def write_i64 (n : Int) : Except EncErr (List Tok) :=
  if n < 0x7fffffff then .ok (write_be_u32 (u32_of_i64 n)) else .error EncErr.assertFail

/-- The bucket partition built by the first loop of encode_index: entry e
goes to bucket (hash e.val) mod 256; pushes preserve input order. -/
def bucketsOf {α : Type} (hash : α → Nat) (index : List (entry α)) :
    List (List (entry α)) :=
  (List.range 256).map (fun i => index.filter (fun e => hash e.val % 256 == i))

/-- One element of a bucket: elt record bracket, position assert, big-endian
u32 offset, then the caller-encoded key. -/
def encode_index_elt {α : Type} (wfn : α → Except EncErr (List Tok))
    (acc : List Tok) (e : entry α) : Except EncErr (List Tok) :=
  let acc := acc ++ [Tok.start TagId.indexBucketsBucketElt]
  if e.pos < 0xffffffff then do
    let ks ← wfn e.val
    pure (acc ++ write_be_u32 e.pos ++ ks ++ [Tok.stop])
  else .error EncErr.assertFail

/-- One bucket record of encode_index. -/
def encode_index_bucket {α : Type} (wfn : α → Except EncErr (List Tok))
    (acc : List Tok) (b : List (entry α)) : Except EncErr (List Tok) := do
  let acc := acc ++ [Tok.start TagId.indexBucketsBucket]
  let acc ← b.foldlM (encode_index_elt wfn) acc
  pure (acc ++ [Tok.stop])

/-- The bucket loop of encode_index, recording each bucket's start
position (mark_stable_position) before serializing it. -/
def encode_index_buckets {α : Type} (wfn : α → Except EncErr (List Tok)) :
    List Tok → List Nat → List (List (entry α)) → Except EncErr (List Tok × List Nat)
  | acc, locs, [] => .ok (acc, locs)
  | acc, locs, b :: bs => do
      let locs := locs ++ [acc.length]
      let acc ← encode_index_bucket wfn acc b
      encode_index_buckets wfn acc locs bs

/-- The trailing bucket-start table of encode_index: asserts each position
fits the 32-bit field and writes it big-endian. -/
def encode_index_table : List Tok → List Nat → Except EncErr (List Tok)
  | acc, [] => .ok acc
  | acc, p :: ps =>
      if p < 0xffffffff then encode_index_table (acc ++ write_be_u32 p) ps
      else .error EncErr.assertFail

/-- encode_index: partition into 256 hash buckets, serialize the buckets in
ascending bucket order, then the fixed table of 256 bucket-start offsets.
The hash is a parameter standing for the fixed-seed SipHasher. -/
def encode_index {α : Type} (hash : α → Nat) (wfn : α → Except EncErr (List Tok))
    (acc : List Tok) (index : List (entry α)) : Except EncErr (List Tok) := do
  let buckets := bucketsOf hash index
  let acc := acc ++ [Tok.start TagId.index, Tok.start TagId.indexBuckets]
  let (acc, locs) ← encode_index_buckets wfn acc [] buckets
  let acc := acc ++ [Tok.stop, Tok.start TagId.indexTable]
  let acc ← encode_index_table acc locs
  pure (acc ++ [Tok.stop, Tok.stop])

/-- Specification payload of one serialized index element. -/
def eltPayload {α : Type} (kb : α → List Tok) (e : entry α) : List Tok :=
  [Tok.start TagId.indexBucketsBucketElt] ++ write_be_u32 e.pos ++ kb e.val ++ [Tok.stop]

/-- Specification payload of one serialized bucket. -/
def bucketPayload {α : Type} (kb : α → List Tok) (b : List (entry α)) : List Tok :=
  [Tok.start TagId.indexBucketsBucket] ++ b.flatMap (eltPayload kb) ++ [Tok.stop]

/-- The bucket-start positions, as recorded by the bucket loop when
serialization starts at position n. -/
def bucketLocsFrom {α : Type} (kb : α → List Tok) : Nat → List (List (entry α)) → List Nat
  | _, [] => []
  | n, b :: bs => n :: bucketLocsFrom kb (n + (bucketPayload kb b).length) bs

/-- checkDense mirrors the sanity loop of get_ordered_deps: crate numbers
must be exactly expected, expected+1, ... -/
def checkDense : Nat → List CrateDep → Bool
  | _, [] => true
  | expected, d :: ds => d.cnum == expected && checkDense (expected + 1) ds

/-- get_ordered_deps: pull the crate data out of cstore (the argument list,
in the store's iteration order), sort by cnum, then assert the numbering is
dense starting at 1; the assert failure aborts the encode. -/
def get_ordered_deps (deps : List CrateDep) : Except EncErr (List CrateDep) :=
  let sorted := List.insertionSort (fun a b => a.cnum ≤ b.cnum) deps
  if checkDense 1 sorted then .ok sorted else .error EncErr.assertFail

/-- encode_crate_dep: one crate-dep record with name and hash. -/
def encode_crate_dep (acc : List Tok) (dep : CrateDep) : List Tok :=
  acc ++ [Tok.start TagId.crateDep, Tok.str TagId.crateDepCrateName dep.name,
          Tok.str TagId.crateDepHash dep.hash, Tok.stop]

/-- encode_crate_deps: the ordered 1..N dependency list inside one record. -/
def encode_crate_deps (acc : List Tok) (cstoreDeps : List CrateDep) :
    Except EncErr (List Tok) := do
  let r ← get_ordered_deps cstoreDeps
  pure (r.foldl encode_crate_dep (acc ++ [Tok.start TagId.crateDeps]) ++ [Tok.stop])

/-- Big-endian 4-byte rendering of a length, exactly the four inserts of
encode_metadata (len as u32, shifted). -/
def be32bytes (n : Nat) : List Nat :=
  [n / 2 ^ 24 % 256, n / 2 ^ 16 % 256, n / 2 ^ 8 % 256, n % 256]

/-- encode_metadata: truncate the cursor buffer to the exact produced length
(seek position after encode_metadata_inner), assert the truncation matches,
and prepend the big-endian u32 length of the truncated body. -/
def encode_metadata (buf : List Nat) (metalen : Nat) : Except EncErr (List Nat) :=
  let v := buf.take metalen
  if v.length = metalen then .ok (be32bytes v.length ++ v) else .error EncErr.assertFail

/-- metadata_encoding_version: the bytes of rust followed by 0 0 0 2. -/
def metadata_encoding_version : List Nat := [114, 117, 115, 116, 0, 0, 0, 2]

/-- Modelled from the spec: the blob framer's caller (the write-metadata
step of the compilation pipeline, outside this file) prepends the fixed
version tag verbatim, with no length prefix of its own, before the
length-prefixed body returned by encode_metadata. -/
def framed_metadata (body : List Nat) : List Nat := metadata_encoding_version ++ body

/-- each_auxiliary_node_id: for a newtype struct (tuple-style, first field
unnamed) the constructor node id is an auxiliary child. -/
def each_auxiliary_node_id (item : ItemView) : List Nat :=
  match item.node with
  | ItemNode.itemStruct (some ctorId) (f :: _) => if f.unnamed then [ctorId] else []
  | _ => []

/-- encode_reexported_static_method: one re-export record for an associated
static method, named exportname::methodname. -/
def encode_reexported_static_method (exp : Export) (methodDefId : DefId)
    (methodName : Nat) : List Tok :=
  [Tok.start TagId.itemsDataItemReexport,
   Tok.u64 TagId.reexportDefId (def_to_u64 methodDefId),
   Tok.str TagId.reexportName (nameStr exp.name ++ "::" ++ nameStr methodName),
   Tok.stop]

/-- encode_reexported_static_base_methods: walk the inherent-impl set of the
export target; returns whether an inherent set existed, plus the writes. -/
def encode_reexported_static_base_methods (tcx : TcxView) (exp : Export) :
    Bool × List Tok :=
  match tcx.inherentImpls exp.def_id with
  | some implementations =>
      (true,
       implementations.flatMap (fun baseImplDid =>
         (tcx.implItems baseImplDid).flatMap (fun methodDid =>
           match tcx.implOrTraitItem methodDid with
           | ImplOrTraitItem.methodItem mDefId mName =>
               encode_reexported_static_method exp mDefId mName
           | ImplOrTraitItem.otherItem => [])))
  | none => (false, [])

/-- encode_reexported_static_trait_methods: the trait-provided item set,
consulted only as a fallback. -/
def encode_reexported_static_trait_methods (tcx : TcxView) (exp : Export) :
    Bool × List Tok :=
  match tcx.traitItemsCache exp.def_id with
  | some traitItems =>
      (true,
       traitItems.flatMap (fun ti =>
         match ti with
         | ImplOrTraitItem.methodItem mDefId mName =>
             encode_reexported_static_method exp mDefId mName
         | ImplOrTraitItem.otherItem => []))
  | none => (false, [])

/-- The comparison loop computing path_differs in
encode_reexported_static_methods, exactly as written: both iterators
exhausted together yields true, a length mismatch or differing element
yields false. -/
def path_differs_loop : List PathElem → List PathElem → Bool
  | [], [] => true
  | [], _ :: _ => false
  | _ :: _, [] => false
  | x :: a, y :: b => if x ≠ y then false else path_differs_loop a b

/-- encode_reexported_static_methods: when the found item's path and the
reexporting module's path satisfy the path_differs condition, or the export
renames the item, mirror the associated static methods, preferring the
inherent-impl set and falling back to trait-provided items. -/
def encode_reexported_static_methods (tcx : TcxView) (mod_path : List PathElem)
    (exp : Export) : List Tok :=
  match tcx.astFindItem exp.def_id.node with
  | some itemName =>
      let path_differs := path_differs_loop (tcx.withPath exp.def_id.node) mod_path
      if path_differs || itemName != exp.name then
        let base := encode_reexported_static_base_methods tcx exp
        base.2 ++ (if !base.1 then (encode_reexported_static_trait_methods tcx exp).2 else [])
      else []
  | none => []

/-- encode_reexports: the module's re-export records, each followed by the
mirrored associated static methods. -/
def encode_reexports (tcx : TcxView) (id : Nat) (path : List PathElem) : List Tok :=
  match tcx.reexports id with
  | some exports =>
      exports.flatMap (fun exp =>
        [Tok.start TagId.itemsDataItemReexport,
         Tok.u64 TagId.reexportDefId (def_to_u64 exp.def_id),
         Tok.str TagId.reexportName (nameStr exp.name),
         Tok.stop] ++
        encode_reexported_static_methods tcx path exp)
  | none => []

/-- encode_info_for_mod: the module record; re-exports are encoded only when
the module is public. -/
def encode_info_for_mod (tcx : TcxView) (items : List ItemView) (attrs : List Attr)
    (id : Nat) (path : List PathElem) (name : Nat) (vis : Vis) : List Tok :=
  [Tok.start TagId.itemsDataItem] ++
  encode_def_id (local_def id) ++
  encode_family 'm' ++
  encode_name name ++
  items.flatMap (fun item =>
    [Tok.u64 TagId.modChild (def_to_u64 (local_def item.id))] ++
    (each_auxiliary_node_id item).map
      (fun auxId => Tok.u64 TagId.modChild (def_to_u64 (local_def auxId))) ++
    (match item.node with
     | ItemNode.itemImpl => [Tok.u64 TagId.modImpl (def_to_u64 (local_def item.id))]
     | _ => [])) ++
  encode_path path ++
  encode_visibility vis ++
  encode_stability (tcx.stab (local_def id)) ++
  (if vis = Vis.publicVis then encode_reexports tcx id path else []) ++
  encode_attributes attrs ++
  [Tok.stop]

/-- encode_info_for_struct: per-field records; each field is pushed onto
both the class-local index and the global index at its start position. -/
def encode_info_for_struct (tcx : TcxView) :
    List Tok → List (entry Int) → List (entry Int) → List FieldTy →
    List (entry Int) × List Tok × List (entry Int)
  | acc, idx, globalIndex, [] => (idx, acc, globalIndex)
  | acc, idx, globalIndex, f :: fs =>
      let pos := acc.length
      let idx := idx ++ [⟨(f.id.node : Int), pos⟩]
      let globalIndex := globalIndex ++ [⟨(f.id.node : Int), pos⟩]
      let acc := acc ++ [Tok.start TagId.itemsDataItem] ++
        encode_struct_field_family f.vis ++
        encode_name f.name ++
        [Tok.ext (ExtCall.boundsAndType f.id.node)] ++
        encode_def_id (local_def f.id.node) ++
        encode_stability (tcx.stab f.id) ++
        [Tok.stop]
      encode_info_for_struct tcx acc idx globalIndex fs

/-- encode_struct_fields: the field back-references inside the owning
record, with the unnamed-field special case. -/
def encode_struct_fields (fields : List FieldTy) (origin : DefId) : List Tok :=
  fields.flatMap (fun f =>
    (if f.unnamed then [Tok.start TagId.unnamedField]
     else [Tok.start TagId.itemField] ++ encode_name f.name) ++
    encode_struct_field_family f.vis ++
    encode_def_id f.id ++
    [Tok.u64 TagId.itemFieldOrigin (def_to_u64 origin)] ++
    [Tok.stop])

/-- The struct-variant sub-block of the encode_enum_variant_info loop body:
field records (building the field sub-index), field back-references, then
the embedded field index. -/
def encode_variant_struct_part (tcx : TcxView) (hash : Int → Nat) (vId : Nat)
    (acc : List Tok) (index : List (entry Int)) :
    Except EncErr (List Tok × List (entry Int)) := do
  let fields := tcx.lookupStructFields (local_def vId)
  let (idx, acc, index) := encode_info_for_struct tcx acc [] index fields
  let acc := acc ++ encode_struct_fields fields (local_def vId)
  let acc ← encode_index hash write_i64 acc idx
  pure (acc, index)

/-- The loop body of encode_enum_variant_info: disr is the running implied
discriminant, i the index into the resolved variant info vi. -/
def encode_enum_variant_info_loop (tcx : TcxView) (hash : Int → Nat) (enumId : Nat)
    (vi : List Nat) :
    List VariantView → Nat → Nat → List Tok → List (entry Int) →
    Except EncErr (List Tok × List (entry Int))
  | [], _, _, acc, index => .ok (acc, index)
  | v :: rest, disr, i, acc, index => do
      let index := index ++ [⟨(v.id : Int), acc.length⟩]
      let acc := acc ++ [Tok.start TagId.itemsDataItem] ++
        encode_def_id (local_def v.id) ++
        encode_family (if v.kindStruct then 'V' else 'v') ++
        encode_name v.name ++
        encode_parent_item (local_def enumId) ++
        encode_visibility v.vis ++
        encode_attributes v.attrs ++
        encode_repr_attrs tcx v.attrs ++
        encode_stability (tcx.stab (local_def v.id))
      let (acc, index) ←
        if v.kindStruct then encode_variant_struct_part tcx hash v.id acc index
        else pure (acc, index)
      match vi[i]? with
      | none => .error EncErr.assertFail
      | some specified =>
          let (acc, disr) :=
            if specified ≠ disr
            then (acc ++ [Tok.str TagId.disrVal (toString specified)], specified)
            else (acc, disr)
          let acc := acc ++ [Tok.ext (ExtCall.boundsAndType v.id)] ++
            encode_path (tcx.withPath v.id) ++ [Tok.stop]
          encode_enum_variant_info_loop tcx hash enumId vi rest
            ((disr + 1) % 2 ^ 64) (i + 1) acc index

/-- encode_enum_variant_info: one record per variant, with an explicit
discriminant record only when the resolved value diverges from the running
default (0, then previous+1 with u64 wrap-around). -/
def encode_enum_variant_info (tcx : TcxView) (hash : Int → Nat) (acc : List Tok)
    (enumId : Nat) (variants : List VariantView) (index : List (entry Int)) :
    Except EncErr (List Tok × List (entry Int)) :=
  encode_enum_variant_info_loop tcx hash enumId (tcx.enumVariants enumId)
    variants 0 0 acc index

/-- Recognizer for the explicit-discriminant record event. -/
def isDisrTok (t : Tok) : Bool :=
  match t with
  | Tok.str TagId.disrVal _ => true
  | _ => false

/-- The expected sequence of discriminant records for resolved values vs
when the running default starts at d. -/
def disrToksSpec : Nat → List Nat → List Tok
  | _, [] => []
  | d, v :: vs =>
      (if v ≠ d then [Tok.str TagId.disrVal (toString v)] else []) ++
      disrToksSpec ((v + 1) % 2 ^ 64) vs

/-- The implied default discriminants: d for the first variant, then each
previous resolved value plus one (mod 2^64). -/
def impliedSeq : Nat → List Nat → List Nat
  | _, [] => []
  | d, v :: vs => d :: impliedSeq ((v + 1) % 2 ^ 64) vs

/-- Projection of a successful encode result to its event list. -/
def okToks (r : Except EncErr (List Tok × List (entry Int))) : List Tok :=
  match r with
  | .ok p => p.1
  | .error _ => []

/-- encode_method_ty_fields. -/
def encode_method_ty_fields (m : MethodView) : List Tok :=
  encode_def_id m.def_id ++
  encode_name m.name ++
  [Tok.start TagId.methodTyGenerics, Tok.ext (ExtCall.genericsEnc m.def_id), Tok.stop] ++
  [Tok.start TagId.itemMethodFty, Tok.ext (ExtCall.methodFty m.def_id), Tok.stop] ++
  encode_visibility m.vis ++
  encode_explicit_self m.explicitSelf ++
  (match m.explicitSelf with
   | SelfCat.staticSelf => encode_family 'F'
   | _ => encode_family 'h') ++
  encode_provided_source m.providedSource

/-- encode_info_for_method: the impl-member record.  An inlined body is
emitted only when a local method item exists and it is generic, a trait
default, inline-requested, or const; the linkage symbol only when the
method has no type parameters. -/
def encode_info_for_method (tcx : TcxView) (syms : List (Nat × String))
    (m : MethodView) (implPath : List PathElem) (isDefaultImpl : Bool)
    (parentId : Nat) (implItemOpt : Option ImplItemView) :
    Except EncErr (List Tok) := do
  let acc := [Tok.start TagId.itemsDataItem] ++
    encode_method_ty_fields m ++
    encode_parent_item (local_def parentId) ++
    encode_item_sort 'r' ++
    encode_stability (tcx.stab m.def_id) ++
    [Tok.ext (ExtCall.boundsAndType m.def_id.node)] ++
    encode_path (implPath ++ [PathElem.pathName m.name])
  let acc ←
    match implItemOpt with
    | some ii =>
        match ii.node with
        | ImplItemNode.methodItem sigConstness sigArgNames => do
            let acc := acc ++ encode_attributes ii.attrs
            let anyTypes := tcx.anyTypes m.def_id
            let needsInline := anyTypes || isDefaultImpl || requests_inline ii.attrs
            let acc := acc ++
              (if needsInline || sigConstness = Constness.const
               then [Tok.ext (ExtCall.iiImplItem (local_def parentId) ii.id)]
               else [])
            let acc := acc ++ encode_constness sigConstness
            let acc ←
              if !anyTypes then do
                let s ← encode_symbol syms m.def_id.node
                pure (acc ++ s)
              else pure acc
            pure (acc ++ encode_method_argument_names sigArgNames)
        | ImplItemNode.otherItem => pure acc
    | none => pure acc
  pure (acc ++ [Tok.stop])

/-- The ItemFn arm of encode_info_for_item: inlined body when generic,
inline-requested or const; symbol only when no type parameters. -/
def encode_info_for_item_fn (tcx : TcxView) (syms : List (Nat × String))
    (item : FnItemView) (path : List PathElem) (acc : List Tok)
    (index : List (entry Int)) : Except EncErr (List Tok × List (entry Int)) := do
  let index := index ++ [⟨(item.id : Int), acc.length⟩]
  let acc := acc ++ [Tok.start TagId.itemsDataItem] ++
    encode_def_id (local_def item.id) ++
    encode_family 'f' ++
    [Tok.ext (ExtCall.boundsAndType item.id)] ++
    encode_name item.name ++
    encode_path path ++
    encode_attributes item.attrs
  let needsInline := item.tpsLen > 0 || requests_inline item.attrs
  let acc := acc ++
    (if needsInline || item.constness = Constness.const
     then [Tok.ext (ExtCall.iiItem item.id)] else [])
  let acc ←
    if item.tpsLen = 0 then do
      let s ← encode_symbol syms item.id
      pure (acc ++ s)
    else pure acc
  let acc := acc ++ encode_constness item.constness ++
    encode_visibility item.vis ++
    encode_stability (tcx.stab (local_def item.id)) ++
    encode_method_argument_names item.argNames ++ [Tok.stop]
  pure (acc, index)

/-- Recognizer for an inlined-body event. -/
def isInlinedTok (t : Tok) : Bool :=
  match t with
  | Tok.ext (ExtCall.iiItem _) => true
  | Tok.ext (ExtCall.iiImplItem _ _) => true
  | _ => false

/-- Recognizer for a linkage-symbol event. -/
def isSymbolTok (t : Tok) : Bool :=
  match t with
  | Tok.str TagId.itemSymbol _ => true
  | _ => false

/-- Recognizer for any event belonging to a re-export record (the record
bracket, the target id, or the exported name). -/
def isReexportTok (t : Tok) : Bool :=
  match t with
  | Tok.start TagId.itemsDataItemReexport => true
  | Tok.u64 TagId.reexportDefId _ => true
  | Tok.str TagId.reexportName _ => true
  | _ => false

/-- Projection of a successful record-encode to its event list. -/
def okToksL (r : Except EncErr (List Tok)) : List Tok :=
  match r with
  | .ok l => l
  | .error _ => []

/-- Whether a record-encode succeeded. -/
def isOkL (r : Except EncErr (List Tok)) : Bool :=
  match r with
  | .ok _ => true
  | .error _ => false

/-- Whether an item-encode (events plus index) succeeded. -/
def isOkP (r : Except EncErr (List Tok × List (entry Int))) : Bool :=
  match r with
  | .ok _ => true
  | .error _ => false

/-- A sample precomputed-state view whose re-export map is populated for
every module id (used to exercise the non-public-module case). -/
def tcxReex : TcxView where
  stab _ := none
  reexports _ := some [⟨7, ⟨0, 9⟩⟩]
  astFindItem _ := none
  withPath _ := []
  inherentImpls _ := none
  implItems _ := []
  traitItemsCache _ := none
  implOrTraitItem _ := ImplOrTraitItem.otherItem
  enumVariants _ := []
  lookupStructFields _ := []
  reprOf _ := 0
  anyTypes _ := false

/-- A sample view for the re-export mirroring path: the export target is an
item named 7 whose recorded path is mod 1 :: name 2, with one inherent impl
holding one static method. -/
def tcxMirror : TcxView where
  stab _ := none
  reexports _ := none
  astFindItem _ := some 7
  withPath _ := [PathElem.pathMod 1, PathElem.pathName 2]
  inherentImpls _ := some [⟨0, 40⟩]
  implItems _ := [⟨0, 41⟩]
  traitItemsCache _ := none
  implOrTraitItem _ := ImplOrTraitItem.methodItem ⟨0, 41⟩ 9
  enumVariants _ := []
  lookupStructFields _ := []
  reprOf _ := 0
  anyTypes _ := false

/-- The module path of the re-exporting module in the mirroring example:
different from the target item's recorded path. -/
def modPathMirror : List PathElem := [PathElem.pathMod 3]

/-- The export of the mirroring example: same name 7, no rename. -/
def expMirror : Export := ⟨7, ⟨0, 40⟩⟩

/-- A sample view in which every member is generic. -/
def tcxGeneric : TcxView where
  stab _ := none
  reexports _ := none
  astFindItem _ := none
  withPath _ := []
  inherentImpls _ := none
  implItems _ := []
  traitItemsCache _ := none
  implOrTraitItem _ := ImplOrTraitItem.otherItem
  enumVariants _ := []
  lookupStructFields _ := []
  reprOf _ := 0
  anyTypes _ := true

/-- A sample view whose enum 1 resolves to discriminants 0 and 7 (the
second variant carries an explicit discriminant). -/
def tcxEnum : TcxView where
  stab _ := none
  reexports _ := none
  astFindItem _ := none
  withPath _ := [PathElem.pathName 4]
  inherentImpls _ := none
  implItems _ := []
  traitItemsCache _ := none
  implOrTraitItem _ := ImplOrTraitItem.otherItem
  enumVariants _ := [0, 7]
  lookupStructFields _ := []
  reprOf _ := 0
  anyTypes _ := false

/-- A sample method view. -/
def mSample : MethodView := ⟨⟨0, 33⟩, 2, Vis.publicVis, SelfCat.staticSelf, none⟩

/-- One run of the section layout of encode_metadata_inner, restricted to
the run-order-sensitive parts: the crate-deps section is built from the
cstore's iteration order, the item index from the collected entries with
the hash fixed by the constant SipHasher key (0,0); the remaining sections,
whose bytes are functions of the declaration tree alone, are the pre, mid
and post parameters. -/
def encoderRun (sipFamily : Nat × Nat → Int → Nat) (pre : List Tok)
    (cstoreIter : List CrateDep) (mid : List Tok) (itemsIndex : List (entry Int))
    (post : List Tok) : Except EncErr (List Tok) := do
  let acc ← encode_crate_deps pre cstoreIter
  let acc := acc ++ mid
  let acc ← encode_index (sipFamily (0, 0)) write_i64 acc itemsIndex
  .ok (acc ++ post)

/-! Helper lemmas. -/

theorem filter_flatMap_eq_nil {α β : Type} (l : List α) (f : α → List β) (p : β → Bool)
    (h : ∀ a ∈ l, (f a).filter p = []) : (l.flatMap f).filter p = [] := by
  induction l with
  | nil => rfl
  | cons a l ih =>
      rw [List.flatMap_cons, List.filter_append, h a (by simp),
        ih (fun a ha => h a (by simp [ha])), List.append_nil]

theorem exceptBind_ok {e a b : Type} (x : a) (f : a → Except e b) :
    (Except.ok x >>= f) = f x := rfl

theorem exceptPure_eq {e a : Type} (x : a) : (pure x : Except e a) = Except.ok x := rfl

theorem encode_index_elt_ok {α : Type} (wfn : α → Except EncErr (List Tok))
    (kb : α → List Tok) (acc : List Tok) (e : entry α)
    (hpos : e.pos < 0xffffffff) (hw : wfn e.val = .ok (kb e.val)) :
    encode_index_elt wfn acc e = .ok (acc ++ eltPayload kb e) := by
  simp only [encode_index_elt, hpos, if_true, hw, eltPayload, exceptBind_ok]
  simp [exceptPure_eq, List.append_assoc]

theorem encode_index_fold_ok {α : Type} (wfn : α → Except EncErr (List Tok))
    (kb : α → List Tok) (b : List (entry α))
    (hb : ∀ e ∈ b, e.pos < 0xffffffff ∧ wfn e.val = .ok (kb e.val)) :
    ∀ acc, List.foldlM (encode_index_elt wfn) acc b =
      .ok (acc ++ b.flatMap (eltPayload kb)) := by
  induction b with
  | nil => intro acc; simp [List.foldlM_nil, exceptPure_eq]
  | cons e b ih =>
      intro acc
      have he := hb e (by simp)
      rw [List.foldlM_cons, encode_index_elt_ok wfn kb acc e he.1 he.2, exceptBind_ok,
        ih (fun x hx => hb x (by simp [hx]))]
      simp [List.append_assoc]

theorem encode_index_bucket_ok {α : Type} (wfn : α → Except EncErr (List Tok))
    (kb : α → List Tok) (acc : List Tok) (b : List (entry α))
    (hb : ∀ e ∈ b, e.pos < 0xffffffff ∧ wfn e.val = .ok (kb e.val)) :
    encode_index_bucket wfn acc b = .ok (acc ++ bucketPayload kb b) := by
  show (List.foldlM (encode_index_elt wfn) (acc ++ [Tok.start TagId.indexBucketsBucket]) b
    >>= fun a => pure (a ++ [Tok.stop])) = _
  rw [encode_index_fold_ok wfn kb b hb, exceptBind_ok, exceptPure_eq]
  simp [bucketPayload, List.append_assoc]

theorem encode_index_buckets_ok {α : Type} (wfn : α → Except EncErr (List Tok))
    (kb : α → List Tok) (bs : List (List (entry α)))
    (hbs : ∀ b ∈ bs, ∀ e ∈ b, e.pos < 0xffffffff ∧ wfn e.val = .ok (kb e.val)) :
    ∀ acc locs, encode_index_buckets wfn acc locs bs =
      .ok (acc ++ bs.flatMap (bucketPayload kb),
           locs ++ bucketLocsFrom kb acc.length bs) := by
  induction bs with
  | nil => intro acc locs; simp [encode_index_buckets, bucketLocsFrom]
  | cons b bs ih =>
      intro acc locs
      show (encode_index_bucket wfn acc b >>= fun a =>
        encode_index_buckets wfn a (locs ++ [acc.length]) bs) = _
      rw [encode_index_bucket_ok wfn kb acc b (hbs b (by simp)), exceptBind_ok,
        ih (fun x hx => hbs x (by simp [hx]))]
      simp [bucketLocsFrom, List.append_assoc, List.length_append]

theorem encode_index_table_ok (ps : List Nat) (hps : ∀ p ∈ ps, p < 0xffffffff) :
    ∀ acc, encode_index_table acc ps = .ok (acc ++ ps.flatMap write_be_u32) := by
  induction ps with
  | nil => intro acc; simp [encode_index_table]
  | cons p ps ih =>
      intro acc
      rw [encode_index_table, if_pos (hps p (by simp)),
        ih (fun x hx => hps x (by simp [hx]))]
      simp [List.append_assoc]

theorem mem_bucketsOf_mem_index {α : Type} (hash : α → Nat) (index : List (entry α))
    {b : List (entry α)} (hb : b ∈ bucketsOf hash index) : ∀ e ∈ b, e ∈ index := by
  intro e he
  simp only [bucketsOf, List.mem_map, List.mem_range] at hb
  obtain ⟨i, _, rfl⟩ := hb
  exact List.mem_of_mem_filter he

theorem encode_index_ok {α : Type} (hash : α → Nat)
    (wfn : α → Except EncErr (List Tok)) (kb : α → List Tok)
    (acc : List Tok) (index : List (entry α))
    (h1 : ∀ e ∈ index, e.pos < 0xffffffff ∧ wfn e.val = .ok (kb e.val))
    (h2 : ∀ p ∈ bucketLocsFrom kb (acc.length + 2) (bucketsOf hash index),
            p < 0xffffffff) :
    encode_index hash wfn acc index =
      .ok (acc ++ [Tok.start TagId.index, Tok.start TagId.indexBuckets] ++
        (bucketsOf hash index).flatMap (bucketPayload kb) ++
        [Tok.stop, Tok.start TagId.indexTable] ++
        (bucketLocsFrom kb (acc.length + 2) (bucketsOf hash index)).flatMap
          write_be_u32 ++
        [Tok.stop, Tok.stop]) := by
  have hbs : ∀ b ∈ bucketsOf hash index, ∀ e ∈ b,
      e.pos < 0xffffffff ∧ wfn e.val = .ok (kb e.val) :=
    fun b hb e he => h1 e (mem_bucketsOf_mem_index hash index hb e he)
  have hlen : (acc ++ [Tok.start TagId.index, Tok.start TagId.indexBuckets]).length =
      acc.length + 2 := by simp
  show (encode_index_buckets wfn
      (acc ++ [Tok.start TagId.index, Tok.start TagId.indexBuckets]) []
      (bucketsOf hash index) >>= fun p =>
    encode_index_table (p.1 ++ [Tok.stop, Tok.start TagId.indexTable]) p.2 >>=
      fun a2 => pure (a2 ++ [Tok.stop, Tok.stop])) = _
  rw [encode_index_buckets_ok wfn kb _ hbs, exceptBind_ok]
  simp only [List.nil_append, hlen]
  rw [encode_index_table_ok _ h2, exceptBind_ok, exceptPure_eq]
  try simp [List.append_assoc]

theorem exceptBind_err {e a b : Type} (x : e) (f : a → Except e b) :
    ((Except.error x : Except e a) >>= f) = Except.error x := rfl

theorem encode_index_elt_ok_inv {α : Type} (wfn : α → Except EncErr (List Tok))
    (acc : List Tok) (e : entry α) (out : List Tok)
    (h : encode_index_elt wfn acc e = .ok out) :
    e.pos < 0xffffffff ∧ ∃ ks, wfn e.val = .ok ks := by
  by_cases hp : e.pos < 0xffffffff
  · refine ⟨hp, ?_⟩
    cases hw : wfn e.val with
    | ok ks => exact ⟨ks, rfl⟩
    | error err =>
        simp only [encode_index_elt, if_pos hp, hw, exceptBind_err] at h
        cases h
  · simp only [encode_index_elt, if_neg hp] at h
    cases h

theorem encode_index_fold_ok_inv {α : Type} (wfn : α → Except EncErr (List Tok))
    (b : List (entry α)) :
    ∀ acc out, List.foldlM (encode_index_elt wfn) acc b = .ok out →
      ∀ e ∈ b, e.pos < 0xffffffff ∧ ∃ ks, wfn e.val = .ok ks := by
  induction b with
  | nil => intro acc out _ e he; cases he
  | cons e b ih =>
      intro acc out h x hx
      rw [List.foldlM_cons] at h
      cases hstep : encode_index_elt wfn acc e with
      | error err => rw [hstep, exceptBind_err] at h; cases h
      | ok acc2 =>
          rw [hstep, exceptBind_ok] at h
          rcases List.mem_cons.mp hx with rfl | hx2
          · exact encode_index_elt_ok_inv wfn acc x acc2 hstep
          · exact ih acc2 out h x hx2

theorem encode_index_bucket_ok_inv {α : Type} (wfn : α → Except EncErr (List Tok))
    (acc : List Tok) (b : List (entry α)) (out : List Tok)
    (h : encode_index_bucket wfn acc b = .ok out) :
    ∀ e ∈ b, e.pos < 0xffffffff ∧ ∃ ks, wfn e.val = .ok ks := by
  have h2 : (List.foldlM (encode_index_elt wfn)
      (acc ++ [Tok.start TagId.indexBucketsBucket]) b >>=
      fun a => pure (a ++ [Tok.stop])) = .ok out := h
  cases hf : List.foldlM (encode_index_elt wfn)
      (acc ++ [Tok.start TagId.indexBucketsBucket]) b with
  | error err => rw [hf, exceptBind_err] at h2; cases h2
  | ok a => exact encode_index_fold_ok_inv wfn b _ a hf

theorem encode_index_buckets_ok_inv {α : Type} (wfn : α → Except EncErr (List Tok))
    (bs : List (List (entry α))) :
    ∀ acc locs out, encode_index_buckets wfn acc locs bs = .ok out →
      ∀ b ∈ bs, ∀ e ∈ b, e.pos < 0xffffffff ∧ ∃ ks, wfn e.val = .ok ks := by
  induction bs with
  | nil => intro acc locs out _ b hb; cases hb
  | cons b bs ih =>
      intro acc locs out h c hc
      have h2 : (encode_index_bucket wfn acc b >>= fun a =>
          encode_index_buckets wfn a (locs ++ [acc.length]) bs) = .ok out := h
      cases hstep : encode_index_bucket wfn acc b with
      | error err => rw [hstep, exceptBind_err] at h2; cases h2
      | ok a =>
          rw [hstep, exceptBind_ok] at h2
          rcases List.mem_cons.mp hc with rfl | hc2
          · exact encode_index_bucket_ok_inv wfn acc c a hstep
          · exact ih a (locs ++ [acc.length]) out h2 c hc2

theorem encode_index_table_ok_inv :
    ∀ (ps : List Nat) (acc out : List Tok), encode_index_table acc ps = .ok out →
      ∀ p ∈ ps, p < 0xffffffff := by
  intro ps
  induction ps with
  | nil => intro acc out _ p hp; cases hp
  | cons p ps ih =>
      intro acc out h q hq
      by_cases hp : p < 0xffffffff
      · rw [encode_index_table, if_pos hp] at h
        rcases List.mem_cons.mp hq with rfl | hq2
        · exact hp
        · exact ih _ out h q hq2
      · rw [encode_index_table, if_neg hp] at h
        cases h

theorem mem_own_bucket {α : Type} (hash : α → Nat) (index : List (entry α))
    {e : entry α} (he : e ∈ index) :
    e ∈ index.filter (fun x => hash x.val % 256 == hash e.val % 256) ∧
    index.filter (fun x => hash x.val % 256 == hash e.val % 256) ∈
      bucketsOf hash index := by
  constructor
  · exact List.mem_filter.mpr ⟨he, by simp⟩
  · simp only [bucketsOf, List.mem_map, List.mem_range]
    exact ⟨hash e.val % 256, Nat.mod_lt _ (by norm_num), rfl⟩

theorem encode_index_ok_inv {α : Type} (hash : α → Nat)
    (wfn : α → Except EncErr (List Tok)) (acc : List Tok)
    (index : List (entry α)) (out : List Tok)
    (h : encode_index hash wfn acc index = .ok out) :
    ∀ e ∈ index, e.pos < 0xffffffff ∧ ∃ ks, wfn e.val = .ok ks := by
  intro e he
  have h2 : (encode_index_buckets wfn
      (acc ++ [Tok.start TagId.index, Tok.start TagId.indexBuckets]) []
      (bucketsOf hash index) >>= fun p =>
    encode_index_table (p.1 ++ [Tok.stop, Tok.start TagId.indexTable]) p.2 >>=
      fun a2 => pure (a2 ++ [Tok.stop, Tok.stop])) = .ok out := h
  cases hb : encode_index_buckets wfn
      (acc ++ [Tok.start TagId.index, Tok.start TagId.indexBuckets]) []
      (bucketsOf hash index) with
  | error err => rw [hb, exceptBind_err] at h2; cases h2
  | ok p =>
      obtain ⟨hmem, hbuck⟩ := mem_own_bucket hash index he
      exact encode_index_buckets_ok_inv wfn _ _ _ _ hb _ hbuck e hmem

theorem write_i64_ok_inv (n : Int) (ks : List Tok) (h : write_i64 n = .ok ks) :
    n < 0x7fffffff ∧ ks = write_be_u32 (u32_of_i64 n) := by
  by_cases hn : n < 0x7fffffff
  · rw [write_i64, if_pos hn] at h
    exact ⟨hn, (Except.ok.injEq _ _ |>.mp h.symm)⟩
  · rw [write_i64, if_neg hn] at h
    cases h

/-! Claim theorems. -/

/-- C2: encode_metadata truncates the tagged-record stream to the exact
produced length metalen (discarding the trailing padding bytes the writer
left past it), and returns a 4-byte big-endian length field holding L
followed by exactly L bytes of stream, with L the truncated body length. -/
theorem c2_encode_metadata_spec (buf : List Nat) (metalen : Nat)
    (h : metalen ≤ buf.length) :
    encode_metadata buf metalen = .ok (be32bytes metalen ++ buf.take metalen) ∧
    (buf.take metalen).length = metalen ∧
    (be32bytes metalen).length = 4 ∧
    (∀ a b c d, metalen < 2 ^ 32 → be32bytes metalen = [a, b, c, d] →
       a * 2 ^ 24 + b * 2 ^ 16 + c * 2 ^ 8 + d = metalen) := by
  have hlen : (buf.take metalen).length = metalen := by
    simp [List.length_take, Nat.min_eq_left h]
  refine ⟨?_, hlen, rfl, ?_⟩
  · rw [encode_metadata]
    simp only [hlen, if_pos rfl, reduceIte]
  · intro a b c d hm heq
    rw [be32bytes] at heq
    injection heq with h1 heq; injection heq with h2 heq
    injection heq with h3 heq; injection heq with h4 _
    subst h1; subst h2; subst h3; subst h4
    omega

/-- C2 witness. -/
theorem c2_encode_metadata_witness :
    (3 : Nat) ≤ ([7, 8, 9, 0, 0] : List Nat).length ∧
      (encode_metadata [7, 8, 9, 0, 0] 3 =
          .ok (be32bytes 3 ++ ([7, 8, 9, 0, 0] : List Nat).take 3) ∧
        (([7, 8, 9, 0, 0] : List Nat).take 3).length = 3 ∧
        (be32bytes 3).length = 4 ∧
        (∀ a b c d, (3 : Nat) < 2 ^ 32 → be32bytes 3 = [a, b, c, d] →
           a * 2 ^ 24 + b * 2 ^ 16 + c * 2 ^ 8 + d = 3)) :=
  ⟨by decide, c2_encode_metadata_spec [7, 8, 9, 0, 0] 3 (by decide)⟩

/-- C3: in the framed blob the fixed 8-byte version tag (ending in the
integer version 2) precedes the length-prefixed body verbatim: the first 8
bytes are exactly the tag, and the length field only starts after them, so
the tag itself is never length-prefixed.  The framing caller is modelled
from the spec (it lives outside this file). -/
theorem c3_version_tag_spec (buf : List Nat) (metalen : Nat) (blob : List Nat)
    (h : encode_metadata buf metalen = .ok blob) :
    framed_metadata blob = metadata_encoding_version ++ blob ∧
    (framed_metadata blob).take 8 = metadata_encoding_version ∧
    metadata_encoding_version.length = 8 ∧
    metadata_encoding_version.getLast? = some 2 ∧
    (framed_metadata blob).drop 8 =
      be32bytes (buf.take metalen).length ++ buf.take metalen := by
  have hblob : blob = be32bytes (buf.take metalen).length ++ buf.take metalen := by
    rw [encode_metadata] at h
    by_cases hc : (buf.take metalen).length = metalen
    · simp only [hc, if_pos rfl, reduceIte, Except.ok.injEq] at h
      rw [← h, hc]
    · simp only [if_neg hc] at h
      cases h
  refine ⟨rfl, ?_, rfl, rfl, ?_⟩
  · show (metadata_encoding_version ++ blob).take 8 = metadata_encoding_version
    rw [show (8 : Nat) = metadata_encoding_version.length from rfl]
    exact List.take_left metadata_encoding_version blob
  · show (metadata_encoding_version ++ blob).drop 8 = _
    rw [show (8 : Nat) = metadata_encoding_version.length from rfl,
      List.drop_left metadata_encoding_version blob, hblob]

/-- C3 witness. -/
theorem c3_version_tag_witness :
    encode_metadata [1, 2] 2 = .ok [0, 0, 0, 2, 1, 2] ∧
      (framed_metadata [0, 0, 0, 2, 1, 2] =
          metadata_encoding_version ++ [0, 0, 0, 2, 1, 2] ∧
        (framed_metadata [0, 0, 0, 2, 1, 2]).take 8 = metadata_encoding_version ∧
        metadata_encoding_version.length = 8 ∧
        metadata_encoding_version.getLast? = some 2 ∧
        (framed_metadata [0, 0, 0, 2, 1, 2]).drop 8 =
          be32bytes (([1, 2] : List Nat).take 2).length ++ ([1, 2] : List Nat).take 2) :=
  ⟨by decide, c3_version_tag_spec [1, 2] 2 [0, 0, 0, 2, 1, 2] (by decide)⟩

/-- C10: write_i64 writes each index key as a 4-byte big-endian u32 and
asserts it is strictly below 0x7fff_ffff; a key at or above that bound
aborts by assertion failure, so no blob is produced out of encode_index
(the item-index writer) for such an item; this key bound is stricter than
the 32-bit offset bound 0xffff_ffff. -/
theorem c10_write_i64_spec :
    (∀ n : Int, n < 0x7fffffff →
       write_i64 n = .ok (write_be_u32 (u32_of_i64 n)) ∧
       (write_be_u32 (u32_of_i64 n)).length = 4) ∧
    (∀ n : Int, 0x7fffffff ≤ n → write_i64 n = .error EncErr.assertFail) ∧
    (∀ (hash : Int → Nat) (acc : List Tok) (idx : List (entry Int)) (out : List Tok),
       encode_index hash write_i64 acc idx = .ok out → ∀ e ∈ idx, e.val < 0x7fffffff) ∧
    ((0x7fffffff : Nat) < 0xffffffff) := by
  refine ⟨?_, ?_, ?_, by norm_num⟩
  · intro n hn
    exact ⟨by rw [write_i64, if_pos hn], rfl⟩
  · intro n hn
    rw [write_i64, if_neg (Int.not_lt.mpr hn)]
  · intro hash acc idx out h e he
    obtain ⟨_, ks, hks⟩ := encode_index_ok_inv hash write_i64 acc idx out h e he
    exact (write_i64_ok_inv e.val ks hks).1

/-- C10 witness. -/
theorem c10_write_i64_witness :
    ((5 : Int) < 0x7fffffff ∧
       write_i64 5 = .ok (write_be_u32 (u32_of_i64 5)) ∧
       (write_be_u32 (u32_of_i64 5)).length = 4) ∧
    ((0x7fffffff : Int) ≤ 0x7fffffff ∧
       write_i64 0x7fffffff = .error EncErr.assertFail) :=
  ⟨⟨by decide, c10_write_i64_spec.1 5 (by decide)⟩,
   ⟨le_refl _, c10_write_i64_spec.2.1 0x7fffffff (by decide)⟩⟩

theorem checkDense_congr :
    ∀ (l1 l2 : List CrateDep) (e : Nat),
      l1.map (fun d => d.cnum) = l2.map (fun d => d.cnum) →
      checkDense e l1 = checkDense e l2 := by
  intro l1
  induction l1 with
  | nil =>
      intro l2 e h
      have : l2.map (fun d => d.cnum) = [] := h.symm
      rw [List.map_eq_nil_iff.mp this]
  | cons d l1 ih =>
      intro l2 e h
      cases l2 with
      | nil => cases h
      | cons d2 l2 =>
          simp only [List.map_cons, List.cons.injEq] at h
          rw [checkDense, checkDense, h.1, ih l2 (e + 1) h.2]

theorem checkDense_range :
    ∀ (l : List CrateDep) (e : Nat), checkDense e l = true →
      l.map (fun d => d.cnum) = List.range' e l.length := by
  intro l
  induction l with
  | nil => intro e _; rfl
  | cons d l ih =>
      intro e h
      rw [checkDense, Bool.and_eq_true] at h
      have hd : d.cnum = e := by simpa using h.1
      simp only [List.map_cons, List.length_cons, List.range'_succ, hd,
        List.cons.injEq, true_and]
      exact ih (e + 1) h.2

theorem get_ordered_deps_perm {l1 l2 : List CrateDep} (h : l1.Perm l2) :
    get_ordered_deps l1 = get_ordered_deps l2 := by
  have hs1 : List.Sorted (fun a b : CrateDep => a.cnum ≤ b.cnum)
      (List.insertionSort (fun a b => a.cnum ≤ b.cnum) l1) :=
    List.sorted_insertionSort _ l1
  have hs2 : List.Sorted (fun a b : CrateDep => a.cnum ≤ b.cnum)
      (List.insertionSort (fun a b => a.cnum ≤ b.cnum) l2) :=
    List.sorted_insertionSort _ l2
  have hp : (List.insertionSort (fun a b : CrateDep => a.cnum ≤ b.cnum) l1).Perm
      (List.insertionSort (fun a b => a.cnum ≤ b.cnum) l2) :=
    (List.perm_insertionSort _ l1).trans (h.trans (List.perm_insertionSort _ l2).symm)
  have hm1 : ((List.insertionSort (fun a b : CrateDep => a.cnum ≤ b.cnum) l1).map
      (fun d => d.cnum)).Sorted (· ≤ ·) := List.pairwise_map.mpr hs1
  have hm2 : ((List.insertionSort (fun a b : CrateDep => a.cnum ≤ b.cnum) l2).map
      (fun d => d.cnum)).Sorted (· ≤ ·) := List.pairwise_map.mpr hs2
  have hmapeq : (List.insertionSort (fun a b : CrateDep => a.cnum ≤ b.cnum) l1).map
        (fun d => d.cnum) =
      (List.insertionSort (fun a b : CrateDep => a.cnum ≤ b.cnum) l2).map
        (fun d => d.cnum) :=
    List.eq_of_perm_of_sorted (hp.map _) hm1 hm2
  have hcd := checkDense_congr _ _ 1 hmapeq
  by_cases hc : checkDense 1 (List.insertionSort (fun a b : CrateDep => a.cnum ≤ b.cnum) l1) = true
  · have hrange := checkDense_range _ 1 hc
    have hnd1 : ((List.insertionSort (fun a b : CrateDep => a.cnum ≤ b.cnum) l1).map
        (fun d => d.cnum)).Nodup := by
      rw [hrange]; exact List.nodup_range' _ _
    have hnd2 : ((List.insertionSort (fun a b : CrateDep => a.cnum ≤ b.cnum) l2).map
        (fun d => d.cnum)).Nodup := by
      rw [← hmapeq, hrange]; exact List.nodup_range' _ _
    have hlt1 : (List.insertionSort (fun a b : CrateDep => a.cnum ≤ b.cnum) l1).Sorted
        (fun a b => a.cnum < b.cnum) :=
      (hs1.and (List.pairwise_map.mp hnd1)).imp
        (fun hab => Nat.lt_of_le_of_ne hab.1 hab.2)
    have hlt2 : (List.insertionSort (fun a b : CrateDep => a.cnum ≤ b.cnum) l2).Sorted
        (fun a b => a.cnum < b.cnum) :=
      (hs2.and (List.pairwise_map.mp hnd2)).imp
        (fun hab => Nat.lt_of_le_of_ne hab.1 hab.2)
    have heq := List.eq_of_perm_of_sorted hp hlt1 hlt2
    rw [get_ordered_deps, get_ordered_deps, heq]
  · rw [get_ordered_deps, get_ordered_deps, if_neg hc, if_neg (hcd ▸ hc)]

/-- C6 (amended): each internal invariant violation is fatal and aborts the
encode with no partial result: a missing expected symbol is reported via
the diagnostic sink (handler bug); a gap in the dependency numbering and an
index offset exceeding the 32-bit field abort by assertion failure (not
through the diagnostic sink); a dependency-numbering gap is never silently
renumbered: any successful ordering is exactly 1..N. -/
theorem c6_fatal_invariants_spec :
    (∀ (syms : List (Nat × String)) (id : Nat), syms.lookup id = none →
       encode_symbol syms id = .error EncErr.bug) ∧
    (∀ deps : List CrateDep,
       checkDense 1 (List.insertionSort (fun a b => a.cnum ≤ b.cnum) deps) = false →
       get_ordered_deps deps = .error EncErr.assertFail) ∧
    (∀ (hash : Int → Nat) (acc : List Tok) (idx : List (entry Int))
       (out : List Tok) (e : entry Int), e ∈ idx → 0xffffffff ≤ e.pos →
       encode_index hash write_i64 acc idx ≠ .ok out) ∧
    (∀ deps r : List CrateDep, get_ordered_deps deps = .ok r →
       r.map (fun d => d.cnum) = List.range' 1 r.length) := by
  refine ⟨?_, ?_, ?_, ?_⟩
  · intro syms id h
    rw [encode_symbol, h]
  · intro deps h
    rw [get_ordered_deps, if_neg (by rw [h]; exact Bool.false_ne_true)]
  · intro hash acc idx out e he hpos h
    obtain ⟨hlt, _⟩ := encode_index_ok_inv hash write_i64 acc idx out h e he
    omega
  · intro deps r h
    rw [get_ordered_deps] at h
    by_cases hc : checkDense 1 (List.insertionSort (fun a b => a.cnum ≤ b.cnum) deps) = true
    · rw [if_pos hc] at h
      have := (Except.ok.injEq _ _).mp h
      subst this
      exact checkDense_range _ 1 hc
    · rw [if_neg hc] at h
      cases h

/-- C6 witness. -/
theorem c6_fatal_invariants_witness :
    (([] : List (Nat × String)).lookup 3 = none ∧
       encode_symbol [] 3 = .error EncErr.bug) ∧
    (checkDense 1 (List.insertionSort (fun a b => a.cnum ≤ b.cnum)
         [(⟨3, "x", "y"⟩ : CrateDep)]) = false ∧
       get_ordered_deps [(⟨3, "x", "y"⟩ : CrateDep)] = .error EncErr.assertFail) ∧
    ((⟨5, 0xffffffff⟩ : entry Int) ∈ ([⟨5, 0xffffffff⟩] : List (entry Int)) ∧
       (0xffffffff : Nat) ≤ (0xffffffff : Nat) ∧
       encode_index (fun _ => 0) write_i64 [] [(⟨5, 0xffffffff⟩ : entry Int)] ≠
         .ok []) ∧
    (get_ordered_deps [(⟨1, "a", "h"⟩ : CrateDep)] =
         .ok [(⟨1, "a", "h"⟩ : CrateDep)] ∧
       ([(⟨1, "a", "h"⟩ : CrateDep)]).map (fun d => d.cnum) =
         List.range' 1 ([(⟨1, "a", "h"⟩ : CrateDep)]).length) :=
  ⟨⟨by decide, c6_fatal_invariants_spec.1 [] 3 (by decide)⟩,
   ⟨by decide, c6_fatal_invariants_spec.2.1 [⟨3, "x", "y"⟩] (by decide)⟩,
   ⟨by decide, by decide,
    c6_fatal_invariants_spec.2.2.1 (fun _ => 0) [] [⟨5, 0xffffffff⟩] []
      ⟨5, 0xffffffff⟩ (by decide) (by decide)⟩,
   ⟨by decide,
    c6_fatal_invariants_spec.2.2.2 [⟨1, "a", "h"⟩] [⟨1, "a", "h"⟩] (by decide)⟩⟩

/-- C6 counterexample to the claim as stated: a dependency-numbering gap
aborts by assertion failure, which is not a report through the diagnostic
sink, so the gap violation is fatal but not "reported via the diagnostic
sink". -/
theorem c6_diag_sink_counterexample :
    get_ordered_deps [(⟨2, "a", "h"⟩ : CrateDep)] = .error EncErr.assertFail ∧
    EncErr.assertFail ≠ EncErr.bug := by
  exact ⟨by decide, by decide⟩

/-- C8: two-run determinism.  The only run-varying input of a single encode
is the iteration order in which the crate store enumerates its entries (a
hash-map walk); the index bucketing uses the fixed SipHasher key (0,0), the
same in both runs.  Any two runs whose store enumerations are permutations
of one another produce identical output. -/
theorem c8_determinism_spec (sipFamily : Nat × Nat → Int → Nat)
    (pre mid post : List Tok) (itemsIndex : List (entry Int))
    (iter1 iter2 : List CrateDep) (h : iter1.Perm iter2) :
    encoderRun sipFamily pre iter1 mid itemsIndex post =
      encoderRun sipFamily pre iter2 mid itemsIndex post := by
  unfold encoderRun encode_crate_deps
  rw [get_ordered_deps_perm h]

/-- C8 witness. -/
theorem c8_determinism_witness :
    ([(⟨2, "b", "hb"⟩ : CrateDep), ⟨1, "a", "ha"⟩]).Perm
        [(⟨1, "a", "ha"⟩ : CrateDep), ⟨2, "b", "hb"⟩] ∧
      encoderRun (fun _ _ => 0) [] [(⟨2, "b", "hb"⟩ : CrateDep), ⟨1, "a", "ha"⟩] []
          [⟨4, 6⟩] [] =
        encoderRun (fun _ _ => 0) [] [(⟨1, "a", "ha"⟩ : CrateDep), ⟨2, "b", "hb"⟩] []
          [⟨4, 6⟩] [] :=
  ⟨by decide,
   c8_determinism_spec (fun _ _ => 0) [] [] [] [⟨4, 6⟩]
     [⟨2, "b", "hb"⟩, ⟨1, "a", "ha"⟩] [⟨1, "a", "ha"⟩, ⟨2, "b", "hb"⟩] (by decide)⟩

theorem reexfree_encode_attributes (attrs : List Attr) :
    (encode_attributes attrs).filter isReexportTok = [] := by
  rw [List.filter_eq_nil_iff]
  intro t ht
  simp only [encode_attributes, List.mem_append, List.mem_flatMap,
    List.mem_singleton, List.mem_cons, List.not_mem_nil, or_false] at ht
  rcases ht with (rfl | ⟨a, _, rfl | rfl | rfl | rfl⟩) | rfl <;> simp [isReexportTok]

theorem reexfree_encode_path (path : List PathElem) :
    (encode_path path).filter isReexportTok = [] := by
  rw [List.filter_eq_nil_iff]
  intro t ht
  simp only [encode_path, List.mem_append, List.mem_map, List.mem_cons,
    List.not_mem_nil, or_false, List.mem_singleton] at ht
  rcases ht with ((rfl | rfl) | ⟨pe, _, rfl⟩) | rfl
  · simp [isReexportTok]
  · simp [isReexportTok]
  · cases pe <;> simp [isReexportTok]
  · simp [isReexportTok]

theorem reexfree_encode_stability (stabOpt : Option Nat) :
    (encode_stability stabOpt).filter isReexportTok = [] := by
  cases stabOpt <;> rfl

theorem reexfree_mod_children (items : List ItemView) :
    (items.flatMap (fun item =>
      [Tok.u64 TagId.modChild (def_to_u64 (local_def item.id))] ++
      (each_auxiliary_node_id item).map
        (fun auxId => Tok.u64 TagId.modChild (def_to_u64 (local_def auxId))) ++
      (match item.node with
       | ItemNode.itemImpl => [Tok.u64 TagId.modImpl (def_to_u64 (local_def item.id))]
       | _ => []))).filter isReexportTok = [] := by
  apply filter_flatMap_eq_nil
  intro item _
  rw [List.filter_eq_nil_iff]
  intro t ht
  simp only [List.mem_append, List.mem_singleton, List.mem_map] at ht
  rcases ht with (rfl | ⟨auxId, _, rfl⟩) | hm
  · simp [isReexportTok]
  · simp [isReexportTok]
  · cases hn : item.node <;> rw [hn] at hm <;> simp at hm <;> subst hm <;>
      simp [isReexportTok]

/-- C9: a non-public module's record carries no re-export events (record
brackets, target ids or exported names, including the mirrored
associated-item re-exports), even when the re-export map holds entries for
the module's id. -/
theorem c9_mod_reexports_spec (tcx : TcxView) (items : List ItemView)
    (attrs : List Attr) (id : Nat) (path : List PathElem) (name : Nat)
    (entries : List Export) (hmap : tcx.reexports id = some entries) :
    (encode_info_for_mod tcx items attrs id path name Vis.inherited).filter
      isReexportTok = [] := by
  unfold encode_info_for_mod
  simp only [List.filter_append, reexfree_encode_attributes, reexfree_encode_path,
    reexfree_encode_stability, reexfree_mod_children]
  norm_num [encode_def_id, encode_family, encode_name, encode_visibility,
    List.filter, isReexportTok]

/-- C9 witness. -/
theorem c9_mod_reexports_witness :
    tcxReex.reexports 3 = some [⟨7, ⟨0, 9⟩⟩] ∧
    (encode_info_for_mod tcxReex [⟨4, ItemNode.otherItem⟩] [] 3 [] 5
        Vis.inherited).filter isReexportTok = [] :=
  ⟨rfl, c9_mod_reexports_spec tcxReex [⟨4, ItemNode.otherItem⟩] [] 3 [] 5
    [⟨7, ⟨0, 9⟩⟩] rfl⟩

theorem path_differs_loop_iff_eq :
    ∀ a b : List PathElem, path_differs_loop a b = true ↔ a = b := by
  intro a
  induction a with
  | nil =>
      intro b
      cases b with
      | nil => simp [path_differs_loop]
      | cons y b => simp [path_differs_loop]
  | cons x a ih =>
      intro b
      cases b with
      | nil => simp [path_differs_loop]
      | cons y b =>
          by_cases hxy : x = y
          · subst hxy
            simp [path_differs_loop, ih b]
          · simp [path_differs_loop, hxy]

/-- C7: evaluation of the code at the failing input.  The export target
exists, keeps its name, its recorded path differs from the re-exporting
module's path, and the inherent-impl set yields a mirror record; yet the
encoder emits nothing, because the path_differs value it computes is true
exactly when the two paths are EQUAL (the comparison loop returns true only
on simultaneous exhaustion with all elements equal), inverting the
documented condition. -/
theorem c7_reexport_mirror_failing_input :
    tcxMirror.astFindItem expMirror.def_id.node = some 7 ∧
    expMirror.name = 7 ∧
    tcxMirror.withPath expMirror.def_id.node ≠ modPathMirror ∧
    path_differs_loop (tcxMirror.withPath expMirror.def_id.node) modPathMirror =
      false ∧
    (encode_reexported_static_base_methods tcxMirror expMirror).2 ≠ [] ∧
    encode_reexported_static_methods tcxMirror modPathMirror expMirror = [] := by
  refine ⟨rfl, rfl, by decide, rfl, by decide, rfl⟩

theorem symfree_encode_attributes (attrs : List Attr) (sy : String) :
    Tok.str TagId.itemSymbol sy ∉ encode_attributes attrs := by
  simp [encode_attributes, List.mem_flatMap]

theorem symfree_encode_path (path : List PathElem) (sy : String) :
    Tok.str TagId.itemSymbol sy ∉ encode_path path := by
  intro hmem
  simp only [encode_path, List.mem_append, List.mem_cons, List.mem_singleton,
    List.not_mem_nil, or_false, List.mem_map] at hmem
  rcases hmem with ((h | h) | ⟨pe, _, h⟩) | h
  · simp at h
  · simp at h
  · cases pe <;> simp at h
  · simp at h

theorem symfree_encode_stability (stabOpt : Option Nat) (sy : String) :
    Tok.str TagId.itemSymbol sy ∉ encode_stability stabOpt := by
  cases stabOpt <;> simp [encode_stability]

theorem symfree_encode_constness (c : Constness) (sy : String) :
    Tok.str TagId.itemSymbol sy ∉ encode_constness c := by
  cases c <;> simp [encode_constness]

theorem symfree_encode_method_argument_names (args : List (Option Nat)) (sy : String) :
    Tok.str TagId.itemSymbol sy ∉ encode_method_argument_names args := by
  intro hmem
  simp only [encode_method_argument_names, List.mem_append, List.mem_cons,
    List.mem_singleton, List.not_mem_nil, or_false, List.mem_map] at hmem
  rcases hmem with (h | ⟨a, _, h⟩) | h
  · simp at h
  · cases a <;> simp at h
  · simp at h

theorem symfree_encode_method_ty_fields (m : MethodView) (sy : String) :
    Tok.str TagId.itemSymbol sy ∉ encode_method_ty_fields m := by
  obtain ⟨d, nm, vi, es, ps⟩ := m
  cases es <;> cases ps <;>
    simp [encode_method_ty_fields, encode_def_id, encode_name, encode_visibility,
      encode_explicit_self, encode_family, encode_provided_source, nameStr]


theorem symfree_method_base (m : MethodView) (d : DefId) (stabOpt : Option Nat)
    (n : Nat) (path : List PathElem) (sy : String) :
    Tok.str TagId.itemSymbol sy ∉
      [Tok.start TagId.itemsDataItem] ++ encode_method_ty_fields m ++
      encode_parent_item d ++ encode_item_sort 'r' ++
      encode_stability stabOpt ++ [Tok.ext (ExtCall.boundsAndType n)] ++
      encode_path path := by
  intro hmem
  simp only [List.mem_append, List.mem_singleton, List.mem_cons,
    List.not_mem_nil, or_false] at hmem
  rcases hmem with (((((h | h) | h) | h) | h) | h) | h
  · simp at h
  · exact symfree_encode_method_ty_fields m sy h
  · simp [encode_parent_item] at h
  · simp [encode_item_sort] at h
  · exact symfree_encode_stability stabOpt sy h
  · simp at h
  · exact symfree_encode_path path sy h

/-- C5 (amended): for a member carrying a locally implemented method item --
the ItemFn arm or an impl method whose positional AST item is a method --
an inlined body is attached when the member is generic, is a trait default,
or is attribute-requested; and a linkage symbol is attached only when the
member has no type parameters.  An impl member encoded without a local
method item (an inherited trait default) attaches neither, even when
generic or default. -/
theorem c5_inline_symbol_spec :
    (∀ (tcx : TcxView) (syms : List (Nat × String)) (item : FnItemView)
       (path : List PathElem) (acc : List Tok) (index : List (entry Int))
       (out : List Tok) (idx : List (entry Int)),
       encode_info_for_item_fn tcx syms item path acc index = .ok (out, idx) →
       ((item.tpsLen > 0 ∨ requests_inline item.attrs = true) →
          Tok.ext (ExtCall.iiItem item.id) ∈ out) ∧
       (∀ sy, Tok.str TagId.itemSymbol sy ∈ out →
          Tok.str TagId.itemSymbol sy ∈ acc ∨ item.tpsLen = 0)) ∧
    (∀ (tcx : TcxView) (syms : List (Nat × String)) (m : MethodView)
       (implPath : List PathElem) (isDefault : Bool) (parentId : Nat)
       (ii : ImplItemView) (c : Constness) (args : List (Option Nat))
       (out : List Tok),
       ii.node = ImplItemNode.methodItem c args →
       encode_info_for_method tcx syms m implPath isDefault parentId (some ii) =
         .ok out →
       (tcx.anyTypes m.def_id = true ∨ isDefault = true ∨
          requests_inline ii.attrs = true) →
       Tok.ext (ExtCall.iiImplItem (local_def parentId) ii.id) ∈ out) ∧
    (∀ (tcx : TcxView) (syms : List (Nat × String)) (m : MethodView)
       (implPath : List PathElem) (isDefault : Bool) (parentId : Nat)
       (iiOpt : Option ImplItemView) (out : List Tok),
       encode_info_for_method tcx syms m implPath isDefault parentId iiOpt =
         .ok out →
       ∀ sy, Tok.str TagId.itemSymbol sy ∈ out → tcx.anyTypes m.def_id = false) := by
  refine ⟨?_, ?_, ?_⟩
  · -- ItemFn arm
    intro tcx syms item path acc index out idx h
    by_cases htps : item.tpsLen = 0
    · cases hlook : syms.lookup item.id with
      | none =>
          simp only [encode_info_for_item_fn, htps, reduceIte, encode_symbol, hlook,
            exceptBind_err, exceptBind_ok, exceptPure_eq] at h
          cases h
      | some x =>
          simp only [encode_info_for_item_fn, htps, reduceIte, encode_symbol, hlook,
            exceptBind_err, exceptBind_ok, exceptPure_eq] at h
          injection h with hpair
          injection hpair with h1 h2
          constructor
          · intro hin
            subst h1
            rcases hin with hgt | hreq
            · exact absurd (htps ▸ hgt) (lt_irrefl 0)
            · simp [hreq]
          · intro sy _
            exact Or.inr htps
    · simp only [encode_info_for_item_fn, if_neg htps, exceptBind_ok,
        exceptPure_eq] at h
      injection h with hpair
      injection hpair with h1 h2
      constructor
      · intro hin
        subst h1
        have hni : (decide (item.tpsLen > 0) || requests_inline item.attrs) = true := by
          rcases hin with hgt | hreq
          · simp [hgt]
          · simp [hreq]
        simp [hni]
      · intro sy hmem
        subst h1
        refine Or.inl ?_
        simp only [List.mem_append] at hmem
        rcases hmem with ((((((((((((hm | hm) | hm) | hm) | hm) | hm) | hm) | hm)
          | hm) | hm) | hm) | hm) | hm) | hm
        · exact hm
        · simp at hm
        · simp [encode_def_id] at hm
        · simp [encode_family] at hm
        · simp at hm
        · exact absurd hm (by simp [encode_name, nameStr])
        · exact absurd hm (symfree_encode_path path sy)
        · exact absurd hm (symfree_encode_attributes item.attrs sy)
        · split at hm <;> simp at hm
        · exact absurd hm (symfree_encode_constness item.constness sy)
        · simp [encode_visibility] at hm
        · exact absurd hm (symfree_encode_stability _ sy)
        · exact absurd hm (symfree_encode_method_argument_names item.argNames sy)
        · simp at hm
  · -- impl-method arm, inlined body
    intro tcx syms m implPath isDefault parentId ii c args out hnode h hreq
    cases hAny : tcx.anyTypes m.def_id with
    | true =>
        simp only [encode_info_for_method, hnode, hAny, Bool.true_or,
          Bool.not_true, Bool.false_eq_true, reduceIte, exceptBind_ok,
          exceptPure_eq] at h
        injection h with h1
        subst h1
        simp
    | false =>
        have hni : (false || isDefault || requests_inline ii.attrs) = true := by
          rcases hreq with hx | hx | hx
          · rw [hAny] at hx; cases hx
          · simp [hx]
          · simp [hx]
        cases hlook : syms.lookup m.def_id.node with
        | none =>
            simp only [encode_info_for_method, hnode, hAny, encode_symbol, hlook,
              Bool.not_false, reduceIte, exceptBind_err, exceptBind_ok,
              exceptPure_eq] at h
            cases h
        | some x =>
            simp only [encode_info_for_method, hnode, hAny, encode_symbol, hlook,
              Bool.not_false, reduceIte, exceptBind_err, exceptBind_ok,
              exceptPure_eq] at h
            injection h with h1
            subst h1
            simp only [Bool.false_or] at hni
            simp [hni]
  · -- symbol only for non-generic members
    intro tcx syms m implPath isDefault parentId iiOpt out h sy hmem
    cases hAny : tcx.anyTypes m.def_id with
    | false => rfl
    | true =>
        exfalso
        cases iiOpt with
        | none =>
            simp only [encode_info_for_method, exceptBind_ok, exceptPure_eq] at h
            injection h with h1
            subst h1
            simp only [List.mem_append] at hmem
            rcases hmem with hm | hm
            · exact symfree_method_base m (local_def parentId)
                (tcx.stab m.def_id) m.def_id.node
                (implPath ++ [PathElem.pathName m.name]) sy
                (by simp only [List.mem_append]; exact hm)
            · simp at hm
        | some ii =>
            cases hnode : ii.node with
            | otherItem =>
                simp only [encode_info_for_method, hnode, exceptBind_ok,
                  exceptPure_eq] at h
                injection h with h1
                subst h1
                simp only [List.mem_append] at hmem
                rcases hmem with hm | hm
                · exact symfree_method_base m (local_def parentId)
                    (tcx.stab m.def_id) m.def_id.node
                    (implPath ++ [PathElem.pathName m.name]) sy
                    (by simp only [List.mem_append]; exact hm)
                · simp at hm
            | methodItem c args =>
                simp only [encode_info_for_method, hnode, hAny, Bool.true_or,
                  Bool.not_true, Bool.false_eq_true, reduceIte, exceptBind_ok,
                  exceptPure_eq] at h
                injection h with h1
                subst h1
                simp only [List.mem_append] at hmem
                rcases hmem with ((((hm | hm) | hm) | hm) | hm) | hm
                · exact symfree_method_base m (local_def parentId)
                    (tcx.stab m.def_id) m.def_id.node
                    (implPath ++ [PathElem.pathName m.name]) sy
                    (by simp only [List.mem_append]; exact hm)
                · exact absurd hm (symfree_encode_attributes ii.attrs sy)
                · simp at hm
                · exact absurd hm (symfree_encode_constness c sy)
                · exact absurd hm (symfree_encode_method_argument_names args sy)
                · simp at hm

/-- C5 witness. -/
theorem c5_inline_symbol_witness :
    (encode_info_for_item_fn tcxReex []
        ⟨10, 3, Vis.publicVis, Constness.notConst, 1, [], []⟩ [] [] [] =
      .ok ([Tok.start TagId.itemsDataItem,
            Tok.u64 TagId.defIdTag 10,
            Tok.u8 TagId.itemFamily 102,
            Tok.ext (ExtCall.boundsAndType 10),
            Tok.str TagId.pathsDataName "3",
            Tok.start TagId.pathTag,
            Tok.u32 TagId.pathLen 0,
            Tok.stop,
            Tok.start TagId.attributesTag,
            Tok.stop,
            Tok.ext (ExtCall.iiItem 10),
            Tok.start TagId.constnessTag,
            Tok.str TagId.constnessTag "n",
            Tok.stop,
            Tok.u8 TagId.visibilityTag 121,
            Tok.start TagId.methodArgumentNames,
            Tok.stop,
            Tok.stop], [⟨10, 0⟩])) ∧
    Tok.ext (ExtCall.iiItem 10) ∈
      [Tok.start TagId.itemsDataItem,
       Tok.u64 TagId.defIdTag 10,
       Tok.u8 TagId.itemFamily 102,
       Tok.ext (ExtCall.boundsAndType 10),
       Tok.str TagId.pathsDataName "3",
       Tok.start TagId.pathTag,
       Tok.u32 TagId.pathLen 0,
       Tok.stop,
       Tok.start TagId.attributesTag,
       Tok.stop,
       Tok.ext (ExtCall.iiItem 10),
       Tok.start TagId.constnessTag,
       Tok.str TagId.constnessTag "n",
       Tok.stop,
       Tok.u8 TagId.visibilityTag 121,
       Tok.start TagId.methodArgumentNames,
       Tok.stop,
       Tok.stop] ∧
    tcxReex.anyTypes mSample.def_id = false := by
  have hok : encode_info_for_item_fn tcxReex []
      ⟨10, 3, Vis.publicVis, Constness.notConst, 1, [], []⟩ [] [] [] =
      .ok ([Tok.start TagId.itemsDataItem,
            Tok.u64 TagId.defIdTag 10,
            Tok.u8 TagId.itemFamily 102,
            Tok.ext (ExtCall.boundsAndType 10),
            Tok.str TagId.pathsDataName "3",
            Tok.start TagId.pathTag,
            Tok.u32 TagId.pathLen 0,
            Tok.stop,
            Tok.start TagId.attributesTag,
            Tok.stop,
            Tok.ext (ExtCall.iiItem 10),
            Tok.start TagId.constnessTag,
            Tok.str TagId.constnessTag "n",
            Tok.stop,
            Tok.u8 TagId.visibilityTag 121,
            Tok.start TagId.methodArgumentNames,
            Tok.stop,
            Tok.stop], [⟨10, 0⟩]) := by decide
  refine ⟨hok, (c5_inline_symbol_spec.1 tcxReex []
      ⟨10, 3, Vis.publicVis, Constness.notConst, 1, [], []⟩ [] [] [] _ _ hok).1
      (Or.inl (by decide)),
    c5_inline_symbol_spec.2.2 tcxReex [(33, "sym")] mSample [] false 1
      (some ⟨21, [⟨true, false, 0⟩], ImplItemNode.methodItem Constness.notConst []⟩)
      [Tok.start TagId.itemsDataItem,
       Tok.u64 TagId.defIdTag 33,
       Tok.str TagId.pathsDataName "2",
       Tok.start TagId.methodTyGenerics,
       Tok.ext (ExtCall.genericsEnc ⟨0, 33⟩),
       Tok.stop,
       Tok.start TagId.itemMethodFty,
       Tok.ext (ExtCall.methodFty ⟨0, 33⟩),
       Tok.stop,
       Tok.u8 TagId.visibilityTag 121,
       Tok.bytes TagId.explicitSelfTag [115],
       Tok.u8 TagId.itemFamily 70,
       Tok.u64 TagId.parentItem 1,
       Tok.u8 TagId.traitItemSort 114,
       Tok.ext (ExtCall.boundsAndType 33),
       Tok.start TagId.pathTag,
       Tok.u32 TagId.pathLen 1,
       Tok.str TagId.pathElemName "2",
       Tok.stop,
       Tok.start TagId.attributesTag,
       Tok.start TagId.attributeTag,
       Tok.u8 TagId.attributeIsSugaredDoc 0,
       Tok.ext (ExtCall.metaItem 0),
       Tok.stop,
       Tok.stop,
       Tok.ext (ExtCall.iiImplItem ⟨0, 1⟩ 21),
       Tok.start TagId.constnessTag,
       Tok.str TagId.constnessTag "n",
       Tok.stop,
       Tok.str TagId.itemSymbol "sym",
       Tok.start TagId.methodArgumentNames,
       Tok.stop,
       Tok.stop] (by decide) "sym" (by decide)⟩

/-- C5 counterexample to the claim as stated: an impl member that is generic
and a trait default but has no local AST item (an inherited default) gets
no inlined body attached, although the claim requires one for every
generic-or-default member being encoded. -/
theorem c5_inherited_default_counterexample :
    tcxGeneric.anyTypes mSample.def_id = true ∧
    isOkL (encode_info_for_method tcxGeneric [] mSample [] true 1 none) = true ∧
    (okToksL (encode_info_for_method tcxGeneric [] mSample [] true 1 none)).filter
      isInlinedTok = [] := by
  exact ⟨rfl, by decide, by decide⟩

theorem dfree_write_be_u32 (u : Nat) : (write_be_u32 u).filter isDisrTok = [] := rfl

theorem dfree_encode_name (n : Nat) : (encode_name n).filter isDisrTok = [] := rfl

theorem dfree_encode_def_id (d : DefId) :
    (encode_def_id d).filter isDisrTok = [] := rfl

theorem dfree_encode_family (c : Char) :
    (encode_family c).filter isDisrTok = [] := rfl

theorem dfree_encode_parent_item (d : DefId) :
    (encode_parent_item d).filter isDisrTok = [] := rfl

theorem dfree_encode_visibility (v : Vis) :
    (encode_visibility v).filter isDisrTok = [] := rfl

theorem dfree_encode_struct_field_family (v : Vis) :
    (encode_struct_field_family v).filter isDisrTok = [] := by
  cases v <;> rfl

theorem dfree_encode_attributes (attrs : List Attr) :
    (encode_attributes attrs).filter isDisrTok = [] := by
  have hinner := filter_flatMap_eq_nil attrs
    (fun a => [Tok.start TagId.attributeTag,
      Tok.u8 TagId.attributeIsSugaredDoc (if a.isSugaredDoc then 1 else 0),
      Tok.ext (ExtCall.metaItem a.meta), Tok.stop]) isDisrTok (fun a _ => rfl)
  rw [encode_attributes, List.filter_append, List.filter_append, hinner]
  rfl

theorem dfree_encode_repr_attrs (tcx : TcxView) (attrs : List Attr) :
    (encode_repr_attrs tcx attrs).filter isDisrTok = [] := rfl

theorem dfree_encode_stability (stabOpt : Option Nat) :
    (encode_stability stabOpt).filter isDisrTok = [] := by
  cases stabOpt <;> rfl

theorem dfree_encode_path (path : List PathElem) :
    (encode_path path).filter isDisrTok = [] := by
  rw [List.filter_eq_nil_iff]
  intro t ht
  simp only [encode_path, List.mem_append, List.mem_cons, List.mem_singleton,
    List.not_mem_nil, or_false, List.mem_map] at ht
  rcases ht with ((rfl | rfl) | ⟨pe, _, rfl⟩) | rfl
  · simp [isDisrTok]
  · simp [isDisrTok]
  · cases pe <;> simp [isDisrTok]
  · simp [isDisrTok]

theorem dfree_encode_struct_fields (fields : List FieldTy) (origin : DefId) :
    (encode_struct_fields fields origin).filter isDisrTok = [] := by
  rw [encode_struct_fields]
  apply filter_flatMap_eq_nil
  intro f _
  cases hf : f.unnamed <;>
    simp [hf, List.filter_append, dfree_encode_name, dfree_encode_def_id,
      dfree_encode_struct_field_family, List.filter, isDisrTok]

theorem encode_info_for_struct_filter_disr (tcx : TcxView) :
    ∀ (fs : List FieldTy) (acc : List Tok) (idx gi : List (entry Int)),
      ((encode_info_for_struct tcx acc idx gi fs).2.1).filter isDisrTok =
        acc.filter isDisrTok := by
  intro fs
  induction fs with
  | nil => intro acc idx gi; rfl
  | cons f fs ih =>
      intro acc idx gi
      rw [encode_info_for_struct, ih]
      simp [List.filter_append, dfree_encode_name, dfree_encode_def_id,
        dfree_encode_struct_field_family, dfree_encode_stability, List.filter,
        isDisrTok]

theorem dfree_eltPayload (e : entry Int) :
    (eltPayload (fun v => write_be_u32 (u32_of_i64 v)) e).filter isDisrTok = [] := by
  rw [eltPayload]
  simp [List.filter_append, dfree_write_be_u32, List.filter, isDisrTok]

theorem dfree_bucketPayload (b : List (entry Int)) :
    (bucketPayload (fun v => write_be_u32 (u32_of_i64 v)) b).filter isDisrTok = [] := by
  rw [bucketPayload, List.filter_append, List.filter_append]
  rw [filter_flatMap_eq_nil _ _ _ (fun e _ => dfree_eltPayload e)]
  rfl

theorem encode_index_write_i64_shape (hash : Int → Nat) (acc : List Tok)
    (idx : List (entry Int)) (out : List Tok)
    (h : encode_index hash write_i64 acc idx = .ok out) :
    out = acc ++ [Tok.start TagId.index, Tok.start TagId.indexBuckets] ++
      (bucketsOf hash idx).flatMap
        (bucketPayload (fun v => write_be_u32 (u32_of_i64 v))) ++
      [Tok.stop, Tok.start TagId.indexTable] ++
      (bucketLocsFrom (fun v => write_be_u32 (u32_of_i64 v)) (acc.length + 2)
        (bucketsOf hash idx)).flatMap write_be_u32 ++
      [Tok.stop, Tok.stop] := by
  have h1 : ∀ e ∈ idx, e.pos < 0xffffffff ∧
      write_i64 e.val = .ok ((fun v => write_be_u32 (u32_of_i64 v)) e.val) := by
    intro e he
    obtain ⟨hp, ks, hks⟩ := encode_index_ok_inv hash write_i64 acc idx out h e he
    obtain ⟨hv, _⟩ := write_i64_ok_inv e.val ks hks
    exact ⟨hp, by rw [write_i64, if_pos hv]⟩
  have hbs : ∀ b ∈ bucketsOf hash idx, ∀ e ∈ b, e.pos < 0xffffffff ∧
      write_i64 e.val = .ok ((fun v => write_be_u32 (u32_of_i64 v)) e.val) :=
    fun b hb e heb => h1 e (mem_bucketsOf_mem_index hash idx hb e heb)
  have hlen : (acc ++ [Tok.start TagId.index, Tok.start TagId.indexBuckets]).length =
      acc.length + 2 := by simp
  have h2 : (encode_index_buckets write_i64
      (acc ++ [Tok.start TagId.index, Tok.start TagId.indexBuckets]) []
      (bucketsOf hash idx) >>= fun p =>
    encode_index_table (p.1 ++ [Tok.stop, Tok.start TagId.indexTable]) p.2 >>=
      fun a2 => pure (a2 ++ [Tok.stop, Tok.stop])) = .ok out := h
  rw [encode_index_buckets_ok write_i64 (fun v => write_be_u32 (u32_of_i64 v)) _ hbs,
    exceptBind_ok] at h2
  simp only [List.nil_append, hlen] at h2
  cases ht : encode_index_table
      (acc ++ [Tok.start TagId.index, Tok.start TagId.indexBuckets] ++
        (bucketsOf hash idx).flatMap
          (bucketPayload (fun v => write_be_u32 (u32_of_i64 v))) ++
        [Tok.stop, Tok.start TagId.indexTable])
      (bucketLocsFrom (fun v => write_be_u32 (u32_of_i64 v)) (acc.length + 2)
        (bucketsOf hash idx)) with
  | error err =>
      rw [show ((acc ++ [Tok.start TagId.index, Tok.start TagId.indexBuckets] ++
        (bucketsOf hash idx).flatMap
          (bucketPayload (fun v => write_be_u32 (u32_of_i64 v)))) ++
        [Tok.stop, Tok.start TagId.indexTable]) = (acc ++ [Tok.start TagId.index,
          Tok.start TagId.indexBuckets] ++
        (bucketsOf hash idx).flatMap
          (bucketPayload (fun v => write_be_u32 (u32_of_i64 v))) ++
        [Tok.stop, Tok.start TagId.indexTable]) from rfl] at h2
      rw [ht, exceptBind_err] at h2
      cases h2
  | ok a2 =>
      have hlocs := encode_index_table_ok_inv _ _ _ ht
      have ha2 : (Except.ok ((acc ++ [Tok.start TagId.index,
          Tok.start TagId.indexBuckets] ++
          (bucketsOf hash idx).flatMap
            (bucketPayload (fun v => write_be_u32 (u32_of_i64 v))) ++
          [Tok.stop, Tok.start TagId.indexTable]) ++
          (bucketLocsFrom (fun v => write_be_u32 (u32_of_i64 v)) (acc.length + 2)
            (bucketsOf hash idx)).flatMap write_be_u32) :
          Except EncErr (List Tok)) = .ok a2 := by
        rw [← encode_index_table_ok _ hlocs]
        exact ht
      injection ha2 with ha2
      rw [ht, exceptBind_ok, exceptPure_eq] at h2
      injection h2 with h2
      rw [← h2, ← ha2]

theorem encode_index_write_i64_filter_disr (hash : Int → Nat) (acc : List Tok)
    (idx : List (entry Int)) (out : List Tok)
    (h : encode_index hash write_i64 acc idx = .ok out) :
    out.filter isDisrTok = acc.filter isDisrTok := by
  rw [encode_index_write_i64_shape hash acc idx out h]
  rw [List.filter_append, List.filter_append, List.filter_append,
    List.filter_append, List.filter_append]
  rw [filter_flatMap_eq_nil _ _ _ (fun b _ => dfree_bucketPayload b)]
  rw [filter_flatMap_eq_nil _ _ _ (fun u _ => dfree_write_be_u32 u)]
  simp [List.filter, isDisrTok]

theorem encode_variant_struct_part_filter_disr (tcx : TcxView) (hash : Int → Nat)
    (vId : Nat) (acc : List Tok) (index : List (entry Int)) (out : List Tok)
    (index2 : List (entry Int))
    (h : encode_variant_struct_part tcx hash vId acc index = .ok (out, index2)) :
    out.filter isDisrTok = acc.filter isDisrTok := by
  rcases hS : encode_info_for_struct tcx acc [] index
      (tcx.lookupStructFields (local_def vId)) with ⟨idxS, accS, indexS⟩
  have hSfilter : accS.filter isDisrTok = acc.filter isDisrTok := by
    have hgen := encode_info_for_struct_filter_disr tcx
      (tcx.lookupStructFields (local_def vId)) acc [] index
    rw [hS] at hgen
    exact hgen
  have h2 : (match encode_info_for_struct tcx acc [] index
      (tcx.lookupStructFields (local_def vId)) with
    | (idx, acc2, index3) =>
      (encode_index hash write_i64
        (acc2 ++ encode_struct_fields (tcx.lookupStructFields (local_def vId))
          (local_def vId)) idx >>= fun a => pure (a, index3))) = .ok (out, index2) := h
  rw [hS] at h2
  have h3 : (encode_index hash write_i64
      (accS ++ encode_struct_fields (tcx.lookupStructFields (local_def vId))
        (local_def vId)) idxS >>= fun a => pure (a, indexS)) = .ok (out, index2) := h2
  cases hE : encode_index hash write_i64
      (accS ++ encode_struct_fields (tcx.lookupStructFields (local_def vId))
        (local_def vId)) idxS with
  | error err => rw [hE, exceptBind_err] at h3; cases h3
  | ok a =>
      rw [hE, exceptBind_ok, exceptPure_eq] at h3
      injection h3 with hp
      injection hp with h4 h5
      subst h4
      rw [encode_index_write_i64_filter_disr _ _ _ _ hE, List.filter_append,
        dfree_encode_struct_fields, List.append_nil, hSfilter]

theorem dfree_variant_header (tcx : TcxView) (acc : List Tok) (vId vName : Nat)
    (kindChar : Char) (vVis : Vis) (vAttrs : List Attr) (enumId : Nat) :
    (acc ++ [Tok.start TagId.itemsDataItem] ++ encode_def_id (local_def vId) ++
      encode_family kindChar ++ encode_name vName ++
      encode_parent_item (local_def enumId) ++ encode_visibility vVis ++
      encode_attributes vAttrs ++ encode_repr_attrs tcx vAttrs ++
      encode_stability (tcx.stab (local_def vId))).filter isDisrTok =
    acc.filter isDisrTok := by
  rw [List.filter_append, List.filter_append, List.filter_append,
    List.filter_append, List.filter_append, List.filter_append,
    List.filter_append, List.filter_append, List.filter_append,
    dfree_encode_def_id, dfree_encode_family, dfree_encode_name,
    dfree_encode_parent_item, dfree_encode_visibility, dfree_encode_attributes,
    dfree_encode_repr_attrs, dfree_encode_stability]
  simp [List.filter, isDisrTok]

theorem dfree_variant_tail (base : List Tok) (n : Nat) (p : List PathElem) :
    ((base ++ [Tok.ext (ExtCall.boundsAndType n)] ++ encode_path p ++
      [Tok.stop]).filter isDisrTok) = base.filter isDisrTok := by
  rw [List.filter_append, List.filter_append, List.filter_append,
    dfree_encode_path]
  simp [List.filter, isDisrTok]

theorem enum_loop_filter_disr (tcx : TcxView) (hash : Int → Nat) (enumId : Nat)
    (vi : List Nat) :
    ∀ (variants : List VariantView) (disr i : Nat) (acc : List Tok)
      (index : List (entry Int)) (out : List Tok) (idx2 : List (entry Int)),
      encode_enum_variant_info_loop tcx hash enumId vi variants disr i acc index =
        .ok (out, idx2) →
      out.filter isDisrTok =
        acc.filter isDisrTok ++
          disrToksSpec disr ((vi.drop i).take variants.length) := by
  intro variants
  induction variants with
  | nil =>
      intro disr i acc index out idx2 h
      injection h with hp
      injection hp with h1 _
      subst h1
      simp [disrToksSpec]
  | cons v rest ih =>
      intro disr i acc index out idx2 h
      simp only [encode_enum_variant_info_loop] at h
      cases hks : v.kindStruct with
      | false =>
          simp only [hks, Bool.false_eq_true, if_false, exceptPure_eq,
            exceptBind_ok] at h
          cases hvi : vi[i]? with
          | none => simp only [hvi] at h; cases h
          | some specified =>
              simp only [hvi] at h
              obtain ⟨hlt, hgetEq⟩ := List.getElem?_eq_some_iff.mp hvi
              have hdrop : vi.drop i = specified :: vi.drop (i + 1) := by
                rw [List.drop_eq_getElem_cons hlt, hgetEq]
              by_cases hsd : specified ≠ disr
              · simp only [if_pos hsd] at h
                have hrec := ih ((specified + 1) % 2 ^ 64) (i + 1) _ _ out idx2 h
                rw [hrec, hdrop, List.length_cons, List.take_succ_cons, disrToksSpec, if_pos hsd,
                  dfree_variant_tail]
                rw [List.filter_append, dfree_variant_header]
                simp [List.filter, isDisrTok, List.append_assoc]
              · simp only [if_neg hsd] at h
                have heq : specified = disr := not_not.mp hsd
                subst heq
                have hrec := ih ((specified + 1) % 2 ^ 64) (i + 1) _ _ out idx2 h
                rw [hrec, hdrop, List.length_cons, List.take_succ_cons, disrToksSpec,
                  if_neg (by simp), dfree_variant_tail, dfree_variant_header]
                simp
      | true =>
          simp only [hks, if_true, reduceIte] at h
          cases hP : encode_variant_struct_part tcx hash v.id
              (acc ++ [Tok.start TagId.itemsDataItem] ++
                encode_def_id (local_def v.id) ++ encode_family 'V' ++
                encode_name v.name ++ encode_parent_item (local_def enumId) ++
                encode_visibility v.vis ++ encode_attributes v.attrs ++
                encode_repr_attrs tcx v.attrs ++
                encode_stability (tcx.stab (local_def v.id)))
              (index ++ [⟨(v.id : Int), acc.length⟩]) with
          | error err => rw [hP, exceptBind_err] at h; cases h
          | ok p =>
              rcases p with ⟨accP, indexP⟩
              rw [hP, exceptBind_ok] at h
              have hPfilter : accP.filter isDisrTok = acc.filter isDisrTok := by
                rw [encode_variant_struct_part_filter_disr tcx hash v.id _ _ _ _ hP,
                  dfree_variant_header]
              cases hvi : vi[i]? with
              | none => simp only [hvi] at h; cases h
              | some specified =>
                  simp only [hvi] at h
                  obtain ⟨hlt, hgetEq⟩ := List.getElem?_eq_some_iff.mp hvi
                  have hdrop : vi.drop i = specified :: vi.drop (i + 1) := by
                    rw [List.drop_eq_getElem_cons hlt, hgetEq]
                  by_cases hsd : specified ≠ disr
                  · simp only [if_pos hsd] at h
                    have hrec := ih ((specified + 1) % 2 ^ 64) (i + 1) _ _ out idx2 h
                    rw [hrec, hdrop, List.length_cons, List.take_succ_cons, disrToksSpec, if_pos hsd,
                      dfree_variant_tail]
                    rw [List.filter_append, hPfilter]
                    simp [List.filter, isDisrTok, List.append_assoc]
                  · simp only [if_neg hsd] at h
                    have heq : specified = disr := not_not.mp hsd
                    subst heq
                    have hrec := ih ((specified + 1) % 2 ^ 64) (i + 1) _ _ out idx2 h
                    rw [hrec, hdrop, List.length_cons, List.take_succ_cons, disrToksSpec,
                      if_neg (by simp), dfree_variant_tail, hPfilter]
                    simp

theorem disrToksSpec_zip :
    ∀ (vs : List Nat) (d : Nat),
      disrToksSpec d vs =
        (vs.zip (impliedSeq d vs)).flatMap
          (fun p => if p.1 ≠ p.2 then [Tok.str TagId.disrVal (toString p.1)]
                    else []) := by
  intro vs
  induction vs with
  | nil => intro d; rfl
  | cons v vs ih =>
      intro d
      rw [disrToksSpec, impliedSeq, List.zip_cons_cons, List.flatMap_cons,
        ih ((v + 1) % 2 ^ 64)]

theorem disrToksSpec_range :
    ∀ (n d : Nat), d + n ≤ 2 ^ 64 → disrToksSpec d (List.range' d n) = [] := by
  intro n
  induction n with
  | zero => intro d _; rfl
  | succ n ih =>
      intro d hd
      rw [List.range'_succ, disrToksSpec, if_neg (by simp), List.nil_append]
      cases n with
      | zero => rfl
      | succ m =>
          have hm : (d + 1) % 2 ^ 64 = d + 1 := Nat.mod_eq_of_lt (by omega)
          rw [hm]
          exact ih (d + 1) (by omega)

/-- C4: for the sequence of resolved variant discriminants, the loop emits
an explicit discriminant record exactly at the positions where the resolved
value differs from the running implied default, which is 0 for the first
variant and the previous resolved value plus one (with u64 wrap-around)
thereafter; in particular a resolved sequence 0,1,2,... emits no
discriminant record at all. -/
theorem c4_enum_discr_spec :
    (∀ (tcx : TcxView) (hash : Int → Nat) (acc : List Tok) (enumId : Nat)
       (variants : List VariantView) (index : List (entry Int))
       (out : List Tok) (idx : List (entry Int)),
       encode_enum_variant_info tcx hash acc enumId variants index =
         .ok (out, idx) →
       out.filter isDisrTok =
         acc.filter isDisrTok ++
           disrToksSpec 0 ((tcx.enumVariants enumId).take variants.length)) ∧
    (∀ (d : Nat) (vs : List Nat),
       disrToksSpec d vs =
         (vs.zip (impliedSeq d vs)).flatMap
           (fun p => if p.1 ≠ p.2 then [Tok.str TagId.disrVal (toString p.1)]
                     else [])) ∧
    (∀ n : Nat, n ≤ 2 ^ 64 → disrToksSpec 0 (List.range n) = []) := by
  refine ⟨?_, ?_, ?_⟩
  · intro tcx hash acc enumId variants index out idx h
    have h2 : encode_enum_variant_info_loop tcx hash enumId
        (tcx.enumVariants enumId) variants 0 0 acc index = .ok (out, idx) := h
    have := enum_loop_filter_disr tcx hash enumId (tcx.enumVariants enumId)
      variants 0 0 acc index out idx h2
    simpa using this
  · exact fun d vs => disrToksSpec_zip vs d
  · intro n hn
    rw [List.range_eq_range']
    exact disrToksSpec_range n 0 (by omega)

/-- C4 witness. -/
theorem c4_enum_discr_witness :
    (encode_enum_variant_info tcxEnum (fun _ => 0) [] 1
        [⟨11, 5, false, Vis.publicVis, []⟩, ⟨12, 6, false, Vis.publicVis, []⟩] [] =
      .ok ([Tok.start TagId.itemsDataItem,
            Tok.u64 TagId.defIdTag 11,
            Tok.u8 TagId.itemFamily 118,
            Tok.str TagId.pathsDataName "5",
            Tok.u64 TagId.parentItem 1,
            Tok.u8 TagId.visibilityTag 121,
            Tok.start TagId.attributesTag,
            Tok.stop,
            Tok.start TagId.itemsDataItemRepr,
            Tok.ext (ExtCall.reprEncode 0),
            Tok.stop,
            Tok.ext (ExtCall.boundsAndType 11),
            Tok.start TagId.pathTag,
            Tok.u32 TagId.pathLen 1,
            Tok.str TagId.pathElemName "4",
            Tok.stop,
            Tok.stop,
            Tok.start TagId.itemsDataItem,
            Tok.u64 TagId.defIdTag 12,
            Tok.u8 TagId.itemFamily 118,
            Tok.str TagId.pathsDataName "6",
            Tok.u64 TagId.parentItem 1,
            Tok.u8 TagId.visibilityTag 121,
            Tok.start TagId.attributesTag,
            Tok.stop,
            Tok.start TagId.itemsDataItemRepr,
            Tok.ext (ExtCall.reprEncode 0),
            Tok.stop,
            Tok.str TagId.disrVal "7",
            Tok.ext (ExtCall.boundsAndType 12),
            Tok.start TagId.pathTag,
            Tok.u32 TagId.pathLen 1,
            Tok.str TagId.pathElemName "4",
            Tok.stop,
            Tok.stop],
           [⟨11, 0⟩, ⟨12, 17⟩])) ∧
    ([Tok.start TagId.itemsDataItem,
      Tok.u64 TagId.defIdTag 11,
      Tok.u8 TagId.itemFamily 118,
      Tok.str TagId.pathsDataName "5",
      Tok.u64 TagId.parentItem 1,
      Tok.u8 TagId.visibilityTag 121,
      Tok.start TagId.attributesTag,
      Tok.stop,
      Tok.start TagId.itemsDataItemRepr,
      Tok.ext (ExtCall.reprEncode 0),
      Tok.stop,
      Tok.ext (ExtCall.boundsAndType 11),
      Tok.start TagId.pathTag,
      Tok.u32 TagId.pathLen 1,
      Tok.str TagId.pathElemName "4",
      Tok.stop,
      Tok.stop,
      Tok.start TagId.itemsDataItem,
      Tok.u64 TagId.defIdTag 12,
      Tok.u8 TagId.itemFamily 118,
      Tok.str TagId.pathsDataName "6",
      Tok.u64 TagId.parentItem 1,
      Tok.u8 TagId.visibilityTag 121,
      Tok.start TagId.attributesTag,
      Tok.stop,
      Tok.start TagId.itemsDataItemRepr,
      Tok.ext (ExtCall.reprEncode 0),
      Tok.stop,
      Tok.str TagId.disrVal "7",
      Tok.ext (ExtCall.boundsAndType 12),
      Tok.start TagId.pathTag,
      Tok.u32 TagId.pathLen 1,
      Tok.str TagId.pathElemName "4",
      Tok.stop,
      Tok.stop]).filter isDisrTok =
      ([] : List Tok).filter isDisrTok ++
        disrToksSpec 0 ((tcxEnum.enumVariants 1).take
          ([⟨11, 5, false, Vis.publicVis, []⟩,
            (⟨12, 6, false, Vis.publicVis, []⟩ : VariantView)]).length) ∧
    ((3 : Nat) ≤ 2 ^ 64 ∧ disrToksSpec 0 (List.range 3) = []) := by
  have hok : encode_enum_variant_info tcxEnum (fun _ => 0) [] 1
      [⟨11, 5, false, Vis.publicVis, []⟩, ⟨12, 6, false, Vis.publicVis, []⟩] [] =
      .ok ([Tok.start TagId.itemsDataItem,
            Tok.u64 TagId.defIdTag 11,
            Tok.u8 TagId.itemFamily 118,
            Tok.str TagId.pathsDataName "5",
            Tok.u64 TagId.parentItem 1,
            Tok.u8 TagId.visibilityTag 121,
            Tok.start TagId.attributesTag,
            Tok.stop,
            Tok.start TagId.itemsDataItemRepr,
            Tok.ext (ExtCall.reprEncode 0),
            Tok.stop,
            Tok.ext (ExtCall.boundsAndType 11),
            Tok.start TagId.pathTag,
            Tok.u32 TagId.pathLen 1,
            Tok.str TagId.pathElemName "4",
            Tok.stop,
            Tok.stop,
            Tok.start TagId.itemsDataItem,
            Tok.u64 TagId.defIdTag 12,
            Tok.u8 TagId.itemFamily 118,
            Tok.str TagId.pathsDataName "6",
            Tok.u64 TagId.parentItem 1,
            Tok.u8 TagId.visibilityTag 121,
            Tok.start TagId.attributesTag,
            Tok.stop,
            Tok.start TagId.itemsDataItemRepr,
            Tok.ext (ExtCall.reprEncode 0),
            Tok.stop,
            Tok.str TagId.disrVal "7",
            Tok.ext (ExtCall.boundsAndType 12),
            Tok.start TagId.pathTag,
            Tok.u32 TagId.pathLen 1,
            Tok.str TagId.pathElemName "4",
            Tok.stop,
            Tok.stop],
           [⟨11, 0⟩, ⟨12, 17⟩]) := by decide
  exact ⟨hok,
    c4_enum_discr_spec.1 tcxEnum (fun _ => 0) [] 1
      [⟨11, 5, false, Vis.publicVis, []⟩, ⟨12, 6, false, Vis.publicVis, []⟩] [] _ _
      hok,
    by decide, c4_enum_discr_spec.2.2 3 (by decide)⟩

theorem bucketLocsFrom_length {α : Type} (kb : α → List Tok) :
    ∀ (bs : List (List (entry α))) (n : Nat),
      (bucketLocsFrom kb n bs).length = bs.length := by
  intro bs
  induction bs with
  | nil => intro n; rfl
  | cons b bs ih => intro n; simp [bucketLocsFrom, ih]

theorem bucketsOf_getD {α : Type} (hash : α → Nat) (index : List (entry α))
    (j : Nat) (hj : j < 256) :
    (bucketsOf hash index).getD j [] =
      index.filter (fun e => hash e.val % 256 == j) := by
  rw [bucketsOf, List.getD_eq_getElem?_getD, List.getElem?_map,
    List.getElem?_range hj]
  rfl

/-- C1: under the assertion bounds, encode_index places every entry in the
bucket numbered hash of its key mod 256 (order preserved, no entry lost or
duplicated), serializes the 256 buckets in ascending bucket order, each
element as a big-endian u32 offset followed by the caller-encoded key, and
then writes the trailing fixed table of exactly 256 bucket-start offsets.
The hash parameter stands for the fixed-seed SipHasher. -/
theorem c1_encode_index_spec {α : Type} [DecidableEq α] (hash : α → Nat)
    (wfn : α → Except EncErr (List Tok)) (kb : α → List Tok) (acc : List Tok)
    (index : List (entry α))
    (h1 : ∀ e ∈ index, e.pos < 0xffffffff ∧ wfn e.val = .ok (kb e.val))
    (h2 : ∀ p ∈ bucketLocsFrom kb (acc.length + 2) (bucketsOf hash index),
            p < 0xffffffff) :
    encode_index hash wfn acc index =
      .ok (acc ++ [Tok.start TagId.index, Tok.start TagId.indexBuckets] ++
        (bucketsOf hash index).flatMap (bucketPayload kb) ++
        [Tok.stop, Tok.start TagId.indexTable] ++
        (bucketLocsFrom kb (acc.length + 2) (bucketsOf hash index)).flatMap
          write_be_u32 ++
        [Tok.stop, Tok.stop]) ∧
    (bucketsOf hash index).length = 256 ∧
    (bucketLocsFrom kb (acc.length + 2) (bucketsOf hash index)).length = 256 ∧
    (∀ j, j < 256 →
       (bucketsOf hash index).getD j [] =
         index.filter (fun e => hash e.val % 256 == j)) ∧
    (∀ e ∈ index,
       e ∈ (bucketsOf hash index).getD (hash e.val % 256) [] ∧
       ((bucketsOf hash index).getD (hash e.val % 256) []).count e =
         index.count e ∧
       (∀ j, j < 256 → e ∈ (bucketsOf hash index).getD j [] →
          j = hash e.val % 256)) := by
  refine ⟨encode_index_ok hash wfn kb acc index h1 h2, by simp [bucketsOf],
    by rw [bucketLocsFrom_length]; simp [bucketsOf], ?_, ?_⟩
  · intro j hj
    exact bucketsOf_getD hash index j hj
  · intro e he
    have hmod : hash e.val % 256 < 256 := Nat.mod_lt _ (by norm_num)
    rw [bucketsOf_getD hash index _ hmod]
    refine ⟨List.mem_filter.mpr ⟨he, by simp⟩, List.count_filter (by simp), ?_⟩
    intro j hj hmem
    rw [bucketsOf_getD hash index j hj] at hmem
    have h4 : hash e.val % 256 = j := by simpa using (List.mem_filter.mp hmem).2
    exact h4.symm

set_option maxRecDepth 100000 in
/-- C1 witness. -/
theorem c1_encode_index_witness :
    (∀ e ∈ ([⟨5, 7⟩] : List (entry Int)), e.pos < 0xffffffff ∧
       write_i64 e.val = .ok (write_be_u32 (u32_of_i64 e.val))) ∧
    (∀ p ∈ bucketLocsFrom (fun v => write_be_u32 (u32_of_i64 v))
        (([] : List Tok).length + 2)
        (bucketsOf (fun v : Int => v.natAbs) [⟨5, 7⟩]), p < 0xffffffff) ∧
    (encode_index (fun v : Int => v.natAbs) write_i64 [] [⟨5, 7⟩] =
      .ok (([] : List Tok) ++ [Tok.start TagId.index, Tok.start TagId.indexBuckets] ++
        (bucketsOf (fun v : Int => v.natAbs) [⟨5, 7⟩]).flatMap
          (bucketPayload (fun v => write_be_u32 (u32_of_i64 v))) ++
        [Tok.stop, Tok.start TagId.indexTable] ++
        (bucketLocsFrom (fun v => write_be_u32 (u32_of_i64 v))
          (([] : List Tok).length + 2)
          (bucketsOf (fun v : Int => v.natAbs) [⟨5, 7⟩])).flatMap
          write_be_u32 ++
        [Tok.stop, Tok.stop]) ∧
      (bucketsOf (fun v : Int => v.natAbs) [⟨5, 7⟩]).length = 256 ∧
      (bucketLocsFrom (fun v => write_be_u32 (u32_of_i64 v))
        (([] : List Tok).length + 2)
        (bucketsOf (fun v : Int => v.natAbs) [⟨5, 7⟩])).length = 256 ∧
      (∀ j, j < 256 →
         (bucketsOf (fun v : Int => v.natAbs) [⟨5, 7⟩]).getD j [] =
           ([⟨5, 7⟩] : List (entry Int)).filter
             (fun e => e.val.natAbs % 256 == j)) ∧
      (∀ e ∈ ([⟨5, 7⟩] : List (entry Int)),
         e ∈ (bucketsOf (fun v : Int => v.natAbs) [⟨5, 7⟩]).getD
             (e.val.natAbs % 256) [] ∧
         ((bucketsOf (fun v : Int => v.natAbs) [⟨5, 7⟩]).getD
             (e.val.natAbs % 256) []).count e =
           ([⟨5, 7⟩] : List (entry Int)).count e ∧
         (∀ j, j < 256 →
            e ∈ (bucketsOf (fun v : Int => v.natAbs) [⟨5, 7⟩]).getD j [] →
            j = e.val.natAbs % 256))) :=
  ⟨by decide, by decide,
   c1_encode_index_spec (fun v : Int => v.natAbs) write_i64
     (fun v => write_be_u32 (u32_of_i64 v)) [] [⟨5, 7⟩] (by decide) (by decide)⟩

end MetaEnc
